import Mathlib

/-!
Verification development for the enhanced Visual Basic LSP server.

The TypeScript sources are embedded shallowly:
* the WebSocket bridge (rate limiting, JSON-RPC envelope validation,
  Content-Length framing and deframing) from `websocket-bridge.ts`;
* the language server (`server.ts`): symbol parsing, the workspace index,
  lookup (`findSymbol`), hover resolution, references, and diagnostics.

JavaScript strings are modelled as `List Char`.  All strings handled by the
claims consist of BMP scalar values, for which one `Char` corresponds to one
UTF-16 code unit, so JavaScript `.length`, `.substring` and friends coincide
with list length and list slicing.  `Buffer.byteLength(s, "utf8")` is the sum
of the UTF-8 sizes of the scalars, which differs from `.length` exactly on
non-ASCII text — a distinction at the heart of the framing claim.
-/

namespace VBLSP

/-- JavaScript string: a sequence of (BMP) UTF-16 code units, one per `Char`. -/
abbrev JSStr := List Char

/-- ASCII lower-casing on code points (JS `toLowerCase` restricted to ASCII,
which is all the identifiers and keywords compared case-insensitively here). -/
def lowerN (n : Nat) : Nat := if 65 ≤ n ∧ n ≤ 90 then n + 32 else n

/-- Case-insensitive character equality (ASCII folding). -/
def ciEqCh (a b : Char) : Bool := lowerN a.toNat == lowerN b.toNat

/-- Case-insensitive string equality, as produced by comparing
`a.toLowerCase() === b.toLowerCase()` in the source. -/
def ciEqStr : JSStr → JSStr → Bool
  | [], [] => true
  | a :: as, b :: bs => ciEqCh a b && ciEqStr as bs
  | _, _ => false

/-- JS regex `\d`. -/
def isDigitCh (c : Char) : Bool := 48 ≤ c.toNat && c.toNat ≤ 57

/-- JS regex `\w`: ASCII letters, digits and underscore. -/
def isWordCh (c : Char) : Bool :=
  (48 ≤ c.toNat && c.toNat ≤ 57) || (65 ≤ c.toNat && c.toNat ≤ 90) ||
  (97 ≤ c.toNat && c.toNat ≤ 122) || c.toNat == 95

/-- JS regex `\s` (the ASCII part, which is all that occurs in the inputs):
tab, LF, VT, FF, CR, space. -/
def isSpaceCh (c : Char) : Bool :=
  c.toNat == 32 || (9 ≤ c.toNat && c.toNat ≤ 13)

/-- Longest run of characters satisfying `p` together with the remainder
(the deterministic core of greedy `p*` / `p+` matching). -/
def spanP (p : Char → Bool) : JSStr → JSStr × JSStr
  | [] => ([], [])
  | c :: cs =>
    if p c then
      let (a, b) := spanP p cs
      (c :: a, b)
    else ([], c :: cs)

/-- Match a literal (case-sensitive), returning the rest. -/
def eatLit : JSStr → JSStr → Option JSStr
  | [], s => some s
  | _ :: _, [] => none
  | k :: ks, c :: cs => if k == c then eatLit ks cs else none

/-- Match a keyword case-insensitively, returning the matched original
characters and the rest. -/
def eatCI : JSStr → JSStr → Option (JSStr × JSStr)
  | [], s => some ([], s)
  | _ :: _, [] => none
  | k :: ks, c :: cs =>
    if ciEqCh k c then (eatCI ks cs).map (fun m => (c :: m.1, m.2)) else none

/-- Does `pat` occur at the start of `s` (case-sensitive)? -/
def startsLit (pat s : JSStr) : Bool := (eatLit pat s).isSome

/-- Does `pat` occur anywhere inside `s` (case-sensitive)? -/
def containsSeq (s pat : JSStr) : Bool :=
  match s with
  | [] => startsLit pat []
  | _ :: t => startsLit pat s || containsSeq t pat

/-- JS `String.prototype.trim` (ASCII whitespace, which covers the inputs). -/
def jsTrim (s : JSStr) : JSStr :=
  ((s.dropWhile isSpaceCh).reverse.dropWhile isSpaceCh).reverse

/-- JS `split('\n')`. -/
def splitNl (s : JSStr) : List JSStr :=
  match s with
  | [] => [[]]
  | c :: cs =>
    let r := splitNl cs
    if c == '\n' then [] :: r
    else
      match r with
      | [] => [[c]]
      | l :: ls => (c :: l) :: ls

/-- Decimal rendering of a number, as JS string interpolation produces. -/
def natToStr (n : Nat) : JSStr :=
  if n = 0 then ['0']
  else ((Nat.digits 10 n).reverse).map (fun d => Char.ofNat (48 + d))

/-- `parseInt(·, 10)` on a string of decimal digits. -/
def parseIntDec (ds : JSStr) : Nat :=
  Nat.ofDigits 10 ((ds.map (fun c => c.toNat - 48)).reverse)

/-- `Buffer.byteLength(s, "utf8")` for BMP scalar strings. -/
def utf8Len (s : JSStr) : Nat := (s.map Char.utf8Size).sum

/-! ## WebSocket bridge (`websocket-bridge.ts`)

Transport framing, the deframing loop, rate limiting and envelope
validation of the socket message handler. -/

/-- The literal `"Content-Length: "`. -/
def clHead : JSStr := "Content-Length: ".toList

/-- The literal `"\r\n\r\n"` terminating the framing header. -/
def crlf2 : JSStr := ['\r', '\n', '\r', '\n']

/-- `` `Content-Length: ${contentLength}\r\n\r\n` + message `` — the frame the
bridge writes to the worker, with the length measured in UTF-8 bytes. -/
def encodeLSP (m : JSStr) : JSStr := clHead ++ natToStr (utf8Len m) ++ crlf2 ++ m

/-- One attempt of the regex `Content-Length: (\d+)\r\n\r\n` anchored at the
start of `s`; on success returns the parsed length and the number of
characters the header occupies. -/
def headerHere (s : JSStr) : Option (Nat × Nat) :=
  match eatLit clHead s with
  | none => none
  | some r1 =>
    let (ds, r2) := spanP isDigitCh r1
    if ds.isEmpty then none
    else
      match eatLit crlf2 r2 with
      | none => none
      | some _ => some (parseIntDec ds, clHead.length + ds.length + crlf2.length)

/-- Leftmost match of `Content-Length: (\d+)\r\n\r\n`
(`buffer.match(...)`): returns `(match.index, parsed length, match length)`. -/
def findHeaderFrom : JSStr → Nat → Option (Nat × Nat × Nat)
  | [], _ => none
  | s@(_ :: t), i =>
    match headerHere s with
    | some (n, hl) => some (i, n, hl)
    | none => findHeaderFrom t (i + 1)

def findHeader (s : JSStr) : Option (Nat × Nat × Nat) := findHeaderFrom s 0

/-- The `while (true)` deframing loop of the `lspProcess.stdout` data handler,
with explicit fuel.  Every iteration that continues removes
`messageEnd = index + headerLength + contentLength ≥ 21` characters from the
buffer, which is why the JS loop terminates and why fuel `length + 1` is
always enough (see `deframe`). -/
def deframeFuel : Nat → JSStr → List JSStr × JSStr
  | 0, buf => ([], buf)
  | fuel + 1, buf =>
    match findHeader buf with
    | none => ([], buf)
    | some (idx, n, hlen) =>
      let mStart := idx + hlen
      let mEnd := mStart + n
      if buf.length < mEnd then ([], buf)
      else
        let msg := (buf.drop mStart).take n
        let rest := buf.drop mEnd
        let r := deframeFuel fuel rest
        (msg :: r.1, r.2)

/-- Run the deframing loop to completion on a buffer: the messages sent to the
socket and the remaining buffer. -/
def deframe (buf : JSStr) : List JSStr × JSStr := deframeFuel (buf.length + 1) buf

/-- The `stdout` data handler: append the decoded chunk to the session buffer,
then run the deframing loop. -/
def onData (buf chunk : JSStr) : List JSStr × JSStr := deframe (buf ++ chunk)

/-- Rate-limit fields of a `ClientConnection`. -/
structure RLState where
  windowStart : Nat
  messageCount : Nat
  deriving DecidableEq, Repr

def RATE_LIMIT_WINDOW : Nat := 60000
def RATE_LIMIT_MAX_REQUESTS : Nat := 100

/-- The rate-limiting block of the socket message handler: reset the window
if more than `W` has elapsed, then count the message.  JS computes
`now - windowStart > W` on numbers; for a clock that jumped backwards the JS
difference is negative and the Nat difference is `0` — both fail the `> W`
test, so truncated subtraction is faithful. -/
def rateUpdate (W : Nat) (st : RLState) (now : Nat) : RLState :=
  let st' := if W < now - st.windowStart then RLState.mk now 0 else st
  { st' with messageCount := st'.messageCount + 1 }

/-- Rate-limit step: updated state plus whether this message trips the limit
(`messageCount > RATE_LIMIT_MAX_REQUESTS`, which closes the socket). -/
def rateStep (W R : Nat) (st : RLState) (now : Nat) : RLState × Bool :=
  let st' := rateUpdate W st now
  (st', decide (R < st'.messageCount))

/-- Iterate `rateStep` over message arrival times, collecting the
close/accept flag of every message (`true` = rate limit tripped). -/
def runRL (W R : Nat) : RLState → List Nat → List Bool × RLState
  | st, [] => ([], st)
  | st, t :: ts =>
    let s := rateStep W R st t
    let r := runRL W R s.1 ts
    (s.2 :: r.1, r.2)

/-- Truthiness of the `jsonrpc` and `method` fields of a parsed message
(`JSON.parse` succeeded). -/
structure Envelope where
  jsonrpc : Bool
  method : Bool
  deriving DecidableEq, Repr

/-- Observable outcome of the socket message handler for one message. -/
inductive MsgAction where
  /-- `socket.close(1008, 'Rate limit exceeded')`. -/
  | close
  /-- invalid JSON or envelope: warning logged, nothing written, no close. -/
  | drop
  /-- header + payload written to the worker's stdin. -/
  | forward (bytes : JSStr)
  /-- valid message, but `lspProcess.stdin`/`killed` check failed. -/
  | skipDead
  deriving DecidableEq, Repr

/-- The socket `message` handler: rate limiting first, then JSON-RPC envelope
validation, then Content-Length framing and forwarding.  `JSON.parse` is a
platform builtin, so it enters the model as the abstract function `parse`
(`none` = exception thrown); `alive` models `lspProcess.stdin && !killed`. -/
def handleMessage (W R : Nat) (parse : JSStr → Option Envelope) (alive : Bool)
    (st : RLState) (now : Nat) (msg : JSStr) : RLState × MsgAction :=
  let st' := rateUpdate W st now
  if R < st'.messageCount then (st', MsgAction.close)
  else
    match parse msg with
    | none => (st', MsgAction.drop)
    | some e =>
      if e.jsonrpc && e.method then
        if alive then (st', MsgAction.forward (encodeLSP msg))
        else (st', MsgAction.skipDead)
      else (st', MsgAction.drop)

/-- Run the message handler over a sequence of (arrival time, payload)
messages, collecting the action taken for each. -/
def runHandler (W R : Nat) (parse : JSStr → Option Envelope) (alive : Bool) :
    RLState → List (Nat × JSStr) → List MsgAction × RLState
  | st, [] => ([], st)
  | st, (t, m) :: ms =>
    let s := handleMessage W R parse alive st t m
    let r := runHandler W R parse alive s.1 ms
    (s.2 :: r.1, r.2)

/-! ## Language server (`server.ts`): data model and built-in catalog -/

/-- `CompletionItemKind` codes of `vscode-languageserver`. -/
def kindMethod : Nat := 2
def kindFunction : Nat := 3
def kindVariable : Nat := 6
def kindClass : Nat := 7
def kindInterface : Nat := 8
def kindModule : Nat := 9
def kindProperty : Nat := 10
def kindEnum : Nat := 13
def kindKeyword : Nat := 14
def kindConstant : Nat := 21
def kindStruct : Nat := 22

/-- An LSP `Location`: uri plus `{start: {line, character}, end: {line, character}}`. -/
structure Loc where
  uri : JSStr
  startLine : Nat
  startChar : Nat
  endLine : Nat
  endChar : Nat
  deriving DecidableEq, Repr

/-- The `ProjectSymbol` interface of `server.ts`. -/
structure ProjectSymbol where
  name : JSStr
  kind : Nat
  detail : JSStr
  documentation : Option JSStr := none
  location : Option Loc := none
  type : Option JSStr := none
  parameters : List JSStr := []
  returnType : Option JSStr := none
  accessibility : Option JSStr := none
  deriving DecidableEq, Repr

/-- Helper for catalog entries. -/
def mkBuiltin (k : Nat) (n d doc : String) : ProjectSymbol :=
  { name := n.toList, kind := k, detail := d.toList, documentation := some doc.toList }

/-- The `vbKeywords` table of `loadVisualBasicSymbols`. -/
def vbKeywords : List ProjectSymbol :=
  [ mkBuiltin kindKeyword "Dim" "Variable declaration" "Declares variables and allocates storage space."
  , mkBuiltin kindKeyword "Public" "Access modifier" "Declares public accessibility."
  , mkBuiltin kindKeyword "Private" "Access modifier" "Declares private accessibility."
  , mkBuiltin kindKeyword "Function" "Function declaration" "Declares a function that returns a value."
  , mkBuiltin kindKeyword "Sub" "Subroutine declaration" "Declares a subroutine."
  , mkBuiltin kindKeyword "Class" "Class declaration" "Declares a class."
  , mkBuiltin kindKeyword "Module" "Module declaration" "Declares a module."
  , mkBuiltin kindKeyword "If" "Conditional statement" "Conditional execution."
  , mkBuiltin kindKeyword "Then" "Conditional clause" "Part of If statement."
  , mkBuiltin kindKeyword "Else" "Alternative clause" "Alternative branch."
  , mkBuiltin kindKeyword "End" "Block terminator" "Terminates a block."
  , mkBuiltin kindKeyword "For" "Loop statement" "For loop."
  , mkBuiltin kindKeyword "Next" "Loop terminator" "Ends For loop."
  , mkBuiltin kindKeyword "While" "Loop statement" "While loop."
  , mkBuiltin kindKeyword "Return" "Return statement" "Returns from function."
  , mkBuiltin kindKeyword "As" "Type declaration" "Specifies type."
  , mkBuiltin kindKeyword "New" "Object instantiation" "Creates new instance." ]

/-- The `vbTypes` table of `loadVisualBasicSymbols`. -/
def vbTypes : List ProjectSymbol :=
  [ mkBuiltin kindClass "String" "System.String" "Text string type."
  , mkBuiltin kindClass "Integer" "System.Int32" "32-bit integer."
  , mkBuiltin kindClass "Long" "System.Int64" "64-bit integer."
  , mkBuiltin kindClass "Double" "System.Double" "Double precision float."
  , mkBuiltin kindClass "Boolean" "System.Boolean" "True or False."
  , mkBuiltin kindClass "Date" "System.DateTime" "Date and time."
  , mkBuiltin kindClass "Object" "System.Object" "Base object type." ]

/-- `workspaceIndex.symbols` after `loadVisualBasicSymbols`: the insertion-ordered
catalog map (`'keywords'` first, `'types'` second). -/
def builtinCatalog : List (JSStr × List ProjectSymbol) :=
  [("keywords".toList, vbKeywords), ("types".toList, vbTypes)]

/-! ## Declaration pattern matching (`parseDocumentSymbols`)

Each JS regex is rendered as a deterministic matcher.  The regexes involved
have the property that their alternations (`Public|Private`, `Get|Let|Set`,
`Inherits|Implements`, `Dim|Private|Public`, `ByVal|ByRef`) are mutually
exclusive on any concrete text and are never a viable alternative of the
literal keyword that follows the group, so greedy first-alternative matching
with all-or-nothing optional groups computes exactly the JS result. -/

def kwPublic : JSStr := "Public".toList
def kwPrivate : JSStr := "Private".toList
def kwModuleW : JSStr := "Module".toList
def kwClassW : JSStr := "Class".toList
def kwPropertyW : JSStr := "Property".toList
def kwFunctionW : JSStr := "Function".toList
def kwSubW : JSStr := "Sub".toList
def kwDim : JSStr := "Dim".toList
def kwConstW : JSStr := "Const".toList
def kwEnumW : JSStr := "Enum".toList
def kwTypeW : JSStr := "Type".toList
def kwAs : JSStr := "As".toList
def kwGet : JSStr := "Get".toList
def kwLet : JSStr := "Let".toList
def kwSet : JSStr := "Set".toList
def kwInherits : JSStr := "Inherits".toList
def kwImplements : JSStr := "Implements".toList
def kwByVal : JSStr := "ByVal".toList
def kwByRef : JSStr := "ByRef".toList
def kwVariant : JSStr := "Variant".toList
def kwEndW : JSStr := "End".toList
def kwIfW : JSStr := "If".toList
def kwForW : JSStr := "For".toList
def kwWhileW : JSStr := "While".toList
def kwThenW : JSStr := "Then".toList

/-- One alternative of `(Public\s+|Private\s+)`: keyword then at least one
space, capturing the matched text (keyword plus trailing whitespace). -/
def modAlt (kw s : JSStr) : Option (JSStr × JSStr) :=
  match eatCI kw s with
  | none => none
  | some (m, r) =>
    let sp := spanP isSpaceCh r
    if sp.1.isEmpty then none else some (m ++ sp.1, sp.2)

/-- `(k1\s+|k2\s+)?` — optional group, `k1` tried first. -/
def matchMod2 (k1 k2 s : JSStr) : Option JSStr × JSStr :=
  match modAlt k1 s with
  | some (m, r) => (some m, r)
  | none =>
    match modAlt k2 s with
    | some (m, r) => (some m, r)
    | none => (none, s)

/-- `(Public\s+|Private\s+)?` as in most declaration regexes. -/
def matchMod (s : JSStr) : Option JSStr × JSStr := matchMod2 kwPublic kwPrivate s

/-- `\s+(\w+)`: at least one space, then a nonempty word. -/
def wordAfterSpaces1 (s : JSStr) : Option (JSStr × JSStr) :=
  let sp := spanP isSpaceCh s
  if sp.1.isEmpty then none
  else
    let w := spanP isWordCh sp.2
    if w.1.isEmpty then none else some (w.1, w.2)

/-- Everything before the first occurrence of `c`, and the rest after it
(the lazy `(.*?)c`). -/
def splitAtFirst (c : Char) : JSStr → Option (JSStr × JSStr)
  | [] => none
  | x :: xs =>
    if x == c then some ([], xs)
    else (splitAtFirst c xs).map (fun p => (x :: p.1, p.2))

/-- The optional parameter-list group `(?:\s*\((.*?)\))?`: captured text and
rest on success. -/
def paramGroup (s : JSStr) : Option (JSStr × JSStr) :=
  let sp := spanP isSpaceCh s
  match sp.2 with
  | '(' :: r2 => splitAtFirst ')' r2
  | _ => none

/-- Position after the optional parameter-list group (unchanged if the group
does not match — regex optional groups consume nothing on failure). -/
def skipParamGroup (s : JSStr) : JSStr :=
  match paramGroup s with
  | some (_, r) => r
  | none => s

/-- `\s*(?:As\s+(\w+))?`: the captured type, if the group matches. -/
def asGroupStar (s : JSStr) : Option JSStr :=
  let sp := spanP isSpaceCh s
  match eatCI kwAs sp.2 with
  | none => none
  | some (_, r) => (wordAfterSpaces1 r).map (fun p => p.1)

/-- `\s*(?:As\s+(\w+))?` returning also the rest after the type (needed when
more pattern follows, as in the `Const` regex). -/
def asGroupStarRest (s : JSStr) : Option (JSStr × JSStr) :=
  let sp := spanP isSpaceCh s
  match eatCI kwAs sp.2 with
  | none => none
  | some (_, r) => wordAfterSpaces1 r

/-- `(?:\s+As\s+(\w+))?`: space required before `As`. -/
def asGroupPlus (s : JSStr) : Option JSStr :=
  let sp := spanP isSpaceCh s
  if sp.1.isEmpty then none
  else
    match eatCI kwAs sp.2 with
    | none => none
    | some (_, r) => (wordAfterSpaces1 r).map (fun p => p.1)

/-- `/^\s*(Public\s+|Private\s+)?Module\s+(\w+)/i` → (modifier, name). -/
def matchModule (s : JSStr) : Option (Option JSStr × JSStr) :=
  let m := matchMod s
  match eatCI kwModuleW m.2 with
  | none => none
  | some (_, r1) => (wordAfterSpaces1 r1).map (fun p => (m.1, p.1))

/-- `/^\s*(Public\s+|Private\s+)?Class\s+(\w+)(?:\s+(?:Inherits|Implements)\s+(\w+))?/i`
→ (modifier, name, base). -/
def matchClass (s : JSStr) : Option (Option JSStr × JSStr × Option JSStr) :=
  let m := matchMod s
  match eatCI kwClassW m.2 with
  | none => none
  | some (_, r1) =>
    match wordAfterSpaces1 r1 with
    | none => none
    | some (w, r2) =>
      let base :=
        let sp := spanP isSpaceCh r2
        if sp.1.isEmpty then none
        else
          match (eatCI kwInherits sp.2).orElse (fun _ => eatCI kwImplements sp.2) with
          | none => none
          | some (_, r3) => (wordAfterSpaces1 r3).map (fun p => p.1)
      some (m.1, w, base)

/-- `(Get|Let|Set)` tried in order, capturing the matched text. -/
def accessorAlt (s : JSStr) : Option (JSStr × JSStr) :=
  (eatCI kwGet s).orElse (fun _ => (eatCI kwLet s).orElse (fun _ => eatCI kwSet s))

/-- `/^\s*(Public\s+|Private\s+)?Property\s+(Get|Let|Set)?\s*(\w+)(?:\s*\((.*?)\))?\s*(?:As\s+(\w+))?/i`
→ (modifier, accessor, name, type).  When the accessor alternative matches
but no word follows, the regex backtracks to the accessor-less reading, in
which the accessor text itself supplies the `\w+`. -/
def matchProperty (s : JSStr) : Option (Option JSStr × Option JSStr × JSStr × Option JSStr) :=
  let m := matchMod s
  match eatCI kwPropertyW m.2 with
  | none => none
  | some (_, r1) =>
    let sp := spanP isSpaceCh r1
    if sp.1.isEmpty then none
    else
      let viaAccessor : Option (Option JSStr × JSStr × JSStr) :=
        match accessorAlt sp.2 with
        | none => none
        | some (acc, r2) =>
          let sp2 := spanP isSpaceCh r2
          let w := spanP isWordCh sp2.2
          if w.1.isEmpty then none else some (some acc, w.1, w.2)
      let nameTail :=
        match viaAccessor with
        | some t => some t
        | none =>
          let w := spanP isWordCh sp.2
          if w.1.isEmpty then none else some (none, w.1, w.2)
      match nameTail with
      | none => none
      | some (acc, w, r3) => some (m.1, acc, w, asGroupStar (skipParamGroup r3))

/-- `/^\s*(Public\s+|Private\s+)?Function\s+(\w+)\s*\((.*?)\)(?:\s+As\s+(\w+))?/i`
→ (modifier, name, raw parameter text, return type). -/
def matchFunc (s : JSStr) : Option (Option JSStr × JSStr × JSStr × Option JSStr) :=
  let m := matchMod s
  match eatCI kwFunctionW m.2 with
  | none => none
  | some (_, r1) =>
    match wordAfterSpaces1 r1 with
    | none => none
    | some (w, r2) =>
      let sp := spanP isSpaceCh r2
      match sp.2 with
      | '(' :: r3 =>
        match splitAtFirst ')' r3 with
        | none => none
        | some (ps, r4) => some (m.1, w, ps, asGroupPlus r4)
      | _ => none

/-- `/^\s*(Public\s+|Private\s+)?Sub\s+(\w+)\s*\((.*?)\)/i` → (modifier, name, raw parameters). -/
def matchSub (s : JSStr) : Option (Option JSStr × JSStr × JSStr) :=
  let m := matchMod s
  match eatCI kwSubW m.2 with
  | none => none
  | some (_, r1) =>
    match wordAfterSpaces1 r1 with
    | none => none
    | some (w, r2) =>
      let sp := spanP isSpaceCh r2
      match sp.2 with
      | '(' :: r3 =>
        match splitAtFirst ')' r3 with
        | none => none
        | some (ps, _) => some (m.1, w, ps)
      | _ => none

/-- `(Dim|Private|Public)` alternation, capturing the matched text. -/
def dimAlt (s : JSStr) : Option (JSStr × JSStr) :=
  (eatCI kwDim s).orElse (fun _ => (eatCI kwPrivate s).orElse (fun _ => eatCI kwPublic s))

/-- `/^\s*(Dim|Private|Public)\s+(\w+)(?:\s*\(.*?\))?\s*(?:As\s+(\w+))?/i`
→ (keyword as matched, name, type). -/
def matchVar (s : JSStr) : Option (JSStr × JSStr × Option JSStr) :=
  match dimAlt s with
  | none => none
  | some (kw, r) =>
    match wordAfterSpaces1 r with
    | none => none
    | some (w, r2) => some (kw, w, asGroupStar (skipParamGroup r2))

/-- `/^\s*(Private\s+|Public\s+)?Const\s+(\w+)\s*(?:As\s+(\w+))?\s*=\s*(.+)$/i`
→ (modifier, name, type, value text). -/
def matchConst (s : JSStr) : Option (Option JSStr × JSStr × Option JSStr × JSStr) :=
  let m := matchMod2 kwPrivate kwPublic s
  match eatCI kwConstW m.2 with
  | none => none
  | some (_, r1) =>
    match wordAfterSpaces1 r1 with
    | none => none
    | some (w, r2) =>
      let tyRest :=
        match asGroupStarRest r2 with
        | some (t, r3) => (some t, r3)
        | none => ((none : Option JSStr), r2)
      let sp := spanP isSpaceCh tyRest.2
      match sp.2 with
      | '=' :: r4 =>
        let sp2 := spanP isSpaceCh r4
        if sp2.2.isEmpty then none else some (m.1, w, tyRest.1, sp2.2)
      | _ => none

/-- `/^\s*(Public\s+|Private\s+)?Enum\s+(\w+)/i` → (modifier, name). -/
def matchEnum (s : JSStr) : Option (Option JSStr × JSStr) :=
  let m := matchMod s
  match eatCI kwEnumW m.2 with
  | none => none
  | some (_, r1) => (wordAfterSpaces1 r1).map (fun p => (m.1, p.1))

/-- `/^\s*(Public\s+|Private\s+)?Type\s+(\w+)/i` → (modifier, name). -/
def matchType (s : JSStr) : Option (Option JSStr × JSStr) :=
  let m := matchMod s
  match eatCI kwTypeW m.2 with
  | none => none
  | some (_, r1) => (wordAfterSpaces1 r1).map (fun p => (m.1, p.1))

/-! ## Building symbols (`parseDocumentSymbols`) -/

/-- The apostrophe character that opens a VB comment. -/
def apoCh : Char := Char.ofNat 39

/-- One parameter of a parameter list:
`p.trim().match(/(?:ByVal\s+|ByRef\s+)?(\w+)(?:\s+As\s+(\w+))?/i)` tried at
one position (the regex is unanchored, so `searchParam` scans). -/
def paramPatternAt (s : JSStr) : Option (JSStr × Option JSStr) :=
  let direct :=
    let w := spanP isWordCh s
    if w.1.isEmpty then none else some (w.1, asGroupPlus w.2)
  match (modAlt kwByVal s).orElse (fun _ => modAlt kwByRef s) with
  | some (_, r) =>
    let w := spanP isWordCh r
    if w.1.isEmpty then direct else some (w.1, asGroupPlus w.2)
  | none => direct

/-- Unanchored scan for the parameter pattern. -/
def searchParam : JSStr → Option (JSStr × Option JSStr)
  | [] => none
  | s@(_ :: t) =>
    match paramPatternAt s with
    | some r => some r
    | none => searchParam t

/-- JS `split(',')`. -/
def splitComma (s : JSStr) : List JSStr :=
  match s with
  | [] => [[]]
  | c :: cs =>
    let r := splitComma cs
    if c == ',' then [] :: r
    else
      match r with
      | [] => [[c]]
      | l :: ls => (c :: l) :: ls

/-- `` pm ? `${pm[1]}: ${pm[2] || 'Variant'}` : p.trim() ``. -/
def formatParam (p : JSStr) : JSStr :=
  let pt := jsTrim p
  match searchParam pt with
  | some (w, ty) => w ++ ": ".toList ++ ty.getD kwVariant
  | none => pt

/-- `funcMatch[3] ? funcMatch[3].split(',').map(...).filter(p => p) : []`. -/
def formatParams (ps : JSStr) : List JSStr :=
  if ps.isEmpty then []
  else ((splitComma ps).map formatParam).filter (fun p => !p.isEmpty)

/-- `params.join(', ')`. -/
def joinComma (ps : List JSStr) : JSStr := List.intercalate (", ".toList) ps

/-- `match[1]?.trim() || 'Public'`. -/
def accOrPublic (acc : Option JSStr) : JSStr := (acc.map jsTrim).getD kwPublic

/-- The location `{uri, {line: i, character: 0} .. {line: i, character: line.length}}`
attached to every parsed symbol (`line` being the trimmed line). -/
def locAt (uri : JSStr) (i len : Nat) : Option Loc :=
  some { uri := uri, startLine := i, startChar := 0, endLine := i, endChar := len }

/-- Parser state: `currentClass`, `currentModule`. -/
abbrev ParseSt := Option JSStr × Option JSStr

/-- Symbols emitted by the non-`continue` branches (property, function, sub,
variable, const, enum, type) for one non-comment line, in source order. -/
def lineSymbols (uri : JSStr) (i : Nat) (st : ParseSt) (line : JSStr) : List ProjectSymbol :=
  let loc := locAt uri i line.length
  let propS := (matchProperty line).map (fun m =>
    let propType := (m.2.2.2).getD kwVariant
    let accessType := (m.2.1).getD kwGet
    { name := m.2.2.1, kind := kindProperty
      detail := "Property ".toList ++ accessType ++ " As ".toList ++ propType
      accessibility := some (accOrPublic m.1), type := some propType
      location := loc : ProjectSymbol })
  let funcS := (matchFunc line).map (fun m =>
    let ps := formatParams m.2.2.1
    let ret := (m.2.2.2).getD kwVariant
    { name := m.2.1, kind := kindFunction
      detail := "Function (".toList ++ joinComma ps ++ ") As ".toList ++ ret
      accessibility := some (accOrPublic m.1), parameters := ps
      returnType := some ret, location := loc : ProjectSymbol })
  let subS := (matchSub line).map (fun m =>
    let ps := formatParams m.2.2
    { name := m.2.1, kind := kindMethod
      detail := "Sub (".toList ++ joinComma ps ++ ")".toList
      accessibility := some (accOrPublic m.1), parameters := ps
      location := loc : ProjectSymbol })
  let varS := (matchVar line).map (fun m =>
    let scope :=
      if ciEqStr m.1 kwDim then
        if (st.1).isSome || (st.2).isSome then kwPrivate else "Local".toList
      else m.1
    let ty := (m.2.2).getD kwVariant
    { name := m.2.1, kind := kindVariable
      detail := scope ++ " Variable As ".toList ++ ty
      type := some ty, accessibility := some scope, location := loc : ProjectSymbol })
  let constS := (matchConst line).map (fun m =>
    let ty := (m.2.2.1).getD kwVariant
    { name := m.2.1, kind := kindConstant
      detail := "Constant As ".toList ++ ty ++ " = ".toList ++ jsTrim m.2.2.2
      type := some ty, accessibility := some (accOrPublic m.1), location := loc : ProjectSymbol })
  let enumS := (matchEnum line).map (fun m =>
    { name := m.2, kind := kindEnum, detail := "Enumeration".toList
      accessibility := some (accOrPublic m.1), location := loc : ProjectSymbol })
  let typeS := (matchType line).map (fun m =>
    { name := m.2, kind := kindStruct, detail := "User-Defined Type".toList
      accessibility := some (accOrPublic m.1), location := loc : ProjectSymbol })
  propS.toList ++ funcS.toList ++ subS.toList ++ varS.toList ++
    constS.toList ++ enumS.toList ++ typeS.toList

/-- The per-line loop of `parseDocumentSymbols`: comment/blank lines are
skipped; a module or class line emits its symbol, updates the tracking state
and `continue`s; otherwise every matching non-`continue` branch emits. -/
def parseLinesGo (uri : JSStr) : Nat → ParseSt → List JSStr → List ProjectSymbol
  | _, _, [] => []
  | i, st, raw :: rest =>
    let line := jsTrim raw
    if startsLit [apoCh] line || startsLit ("REM ".toList) line || line.isEmpty then
      parseLinesGo uri (i + 1) st rest
    else
      match matchModule line with
      | some (acc, w) =>
        { name := w, kind := kindModule, detail := "Module".toList
          accessibility := some (accOrPublic acc)
          location := locAt uri i line.length : ProjectSymbol }
          :: parseLinesGo uri (i + 1) (st.1, some w) rest
      | none =>
        match matchClass line with
        | some (acc, w, base) =>
          { name := w, kind := kindClass
            detail := "Class".toList ++
              (match base with
               | some b => " (".toList ++ b ++ ")".toList
               | none => [])
            accessibility := some (accOrPublic acc)
            location := locAt uri i line.length : ProjectSymbol }
            :: parseLinesGo uri (i + 1) (some w, st.2) rest
        | none =>
          lineSymbols uri i st line ++ parseLinesGo uri (i + 1) st rest

/-- Rightmost split of a whitespace run at its last `'\n'`:
`some (upTo, after)` where `upTo` ends with the last newline. -/
def splitLastNl (run : JSStr) : Option (JSStr × JSStr) :=
  match run with
  | [] => none
  | c :: cs =>
    match splitLastNl cs with
    | some (a, b) => some (c :: a, b)
    | none => if c == '\n' then some ([c], cs) else none

/-- One global-replace step of `text.replace(/\s+_\s*\n/g, ' ')` at the
current position: whitespace run (≥ 1), underscore, then whitespace up to and
including a newline (greedy `\s*` backtracking to the last newline of the
run). -/
def contMatchHere (s : JSStr) : Option JSStr :=
  let sp := spanP isSpaceCh s
  if sp.1.isEmpty then none
  else
    match sp.2 with
    | '_' :: r =>
      let run := spanP isSpaceCh r
      match splitLastNl run.1 with
      | some (_, after) => some (after ++ run.2)
      | none => none
    | _ => none

/-- `text.replace(/\s+_\s*\n/g, ' ')` — VB line continuations join lines. -/
def replaceContFuel : Nat → JSStr → JSStr
  | 0, s => s
  | fuel + 1, s =>
    match s with
    | [] => []
    | c :: t =>
      match contMatchHere s with
      | some rest => ' ' :: replaceContFuel fuel rest
      | none => c :: replaceContFuel fuel t

def replaceCont (s : JSStr) : JSStr := replaceContFuel s.length s

/-- `parseDocumentSymbols(text, uri)`. -/
def parseDocumentSymbols (text uri : JSStr) : List ProjectSymbol :=
  parseLinesGo uri 0 (none, none) (splitNl (replaceCont text))

/-! ## Workspace index and lookup (`findSymbol`, hover, references) -/

/-- JS `Map.get` on an insertion-ordered map. -/
def lookupAssoc {α : Type} (m : List (JSStr × α)) (k : JSStr) : Option α :=
  (m.find? (fun p => p.1 == k)).map (fun p => p.2)

/-- JS `Map.set`: update in place if the key exists, else append. -/
def setAssoc {α : Type} (m : List (JSStr × α)) (k : JSStr) (v : α) : List (JSStr × α) :=
  if m.any (fun e => e.1 == k) then m.map (fun e => if e.1 == k then (k, v) else e)
  else m ++ [(k, v)]

/-- JS `Map.delete`. -/
def delAssoc {α : Type} (m : List (JSStr × α)) (k : JSStr) : List (JSStr × α) :=
  m.filter (fun e => !(e.1 == k))

/-- `workspaceIndex`: the built-in catalog map and the per-file symbol map,
both in insertion order. -/
structure WorkspaceIndex where
  symbols : List (JSStr × List ProjectSymbol)
  fileSymbols : List (JSStr × List ProjectSymbol)
  deriving Repr

/-- `symbols.find(s => s.name.toLowerCase() === lowerName)`. -/
def findByName (name : JSStr) (syms : List ProjectSymbol) : Option ProjectSymbol :=
  syms.find? (fun s => ciEqStr s.name name)

/-- Scan the entries of an insertion-ordered symbol map, returning the first
case-insensitive name match. -/
def findInEntries (name : JSStr) : List (JSStr × List ProjectSymbol) → Option ProjectSymbol
  | [] => none
  | (_, syms) :: rest =>
    match findByName name syms with
    | some s => some s
    | none => findInEntries name rest

/-- `findSymbol(name, currentUri)`: current file entry, then every file entry
in index-iteration order, then the built-in catalog. -/
def findSymbol (idx : WorkspaceIndex) (name currentUri : JSStr) : Option ProjectSymbol :=
  let cur := (lookupAssoc idx.fileSymbols currentUri).getD []
  match findByName name cur with
  | some s => some s
  | none =>
    match findInEntries name idx.fileSymbols with
    | some s => some s
    | none => findInEntries name idx.symbols

/-- The symbol `connection.onHover` renders: it loops over the built-in
catalog (`workspaceIndex.symbols`) first and only then calls `findSymbol`. -/
def hoverSymbol (idx : WorkspaceIndex) (word currentUri : JSStr) : Option ProjectSymbol :=
  match findInEntries word idx.symbols with
  | some s => some s
  | none => findSymbol idx word currentUri

/-- The location `connection.onDefinition` returns (resolution by
`findSymbol`, then the stored location if any). -/
def definitionLoc (idx : WorkspaceIndex) (word currentUri : JSStr) : Option Loc :=
  (findSymbol idx word currentUri).bind (fun s => s.location)

/-- `getWordAtPosition(line, character)`: the word-character run touching the
cursor (`/[\w]+$/` before it plus `/^[\w]+/` after it). -/
def getWordAtPosition (line : JSStr) (character : Nat) : JSStr :=
  let beforeCursor := line.take character
  let afterCursor := line.drop character
  ((spanP isWordCh beforeCursor.reverse).1).reverse ++ (spanP isWordCh afterCursor).1

/-- Is there a case-insensitive whole-word occurrence of `word` at index `p`
of `line`?  (`word` is a run of word characters, so `\b` amounts to the
neighbour characters not being word characters.) -/
def wordHitAt (word line : JSStr) (p : Nat) : Bool :=
  ciEqStr ((line.drop p).take word.length) word &&
  (match p with
   | 0 => true
   | q + 1 => !(isWordCh (line.getD q ' '))) &&
  !(isWordCh (line.getD (p + word.length) ' '))

/-- All match indices of `new RegExp(` ++ "`\\b${word}\\b`" ++ `, 'gi')` in one
line.  A successful match is `word.length` long, so for a nonempty all-word
`word` the global scan returns exactly these indices. -/
def wholeWordHits (word line : JSStr) : List Nat :=
  if word.isEmpty then []
  else (List.range line.length).filter (fun p => wordHitAt word line p)

/-- `regex.test(line)` for `/\bname\b/i`. -/
def wholeWordTest (word line : JSStr) : Bool := !(wholeWordHits word line).isEmpty

/-- The reference locations one file contributes: one per case-insensitive
whole-word occurrence of `word`, line by line. -/
def refLocations (word uri content : JSStr) : List Loc :=
  ((splitNl content).enum).flatMap (fun e =>
    (wholeWordHits word e.2).map (fun p =>
      { uri := uri, startLine := e.1, startChar := p
        endLine := e.1, endChar := p + word.length }))

def fileScheme : JSStr := "file://".toList

/-- `connection.onReferences` of `server.ts`: resolve the queried word from
the open querying document, then for every indexed file read the content
fresh from disk (`''` on a non-`file://` uri or a failed read) and scan it.
`docs` maps uri → open-document text; `disk` maps fs path → content
(absent = `readFileSync` throws). -/
def onReferences (docs disk : List (JSStr × JSStr)) (idx : WorkspaceIndex)
    (uri : JSStr) (posLine posChar : Nat) : List Loc :=
  match lookupAssoc docs uri with
  | none => []
  | some text =>
    let lineText := (splitNl text).getD posLine []
    let word := getWordAtPosition lineText posChar
    idx.fileSymbols.flatMap (fun e =>
      let fileContent :=
        if startsLit fileScheme e.1 then (lookupAssoc disk (e.1.drop 7)).getD [] else []
      if fileContent.isEmpty then [] else refLocations word e.1 fileContent)

/-- Modelled from the spec: the References behaviour the claim asserts — for
every indexed file use the open-document buffer when one exists, otherwise a
fresh read from disk. -/
def onReferencesSpecClaimed (docs disk : List (JSStr × JSStr)) (idx : WorkspaceIndex)
    (uri : JSStr) (posLine posChar : Nat) : List Loc :=
  match lookupAssoc docs uri with
  | none => []
  | some text =>
    let lineText := (splitNl text).getD posLine []
    let word := getWordAtPosition lineText posChar
    idx.fileSymbols.flatMap (fun e =>
      match lookupAssoc docs e.1 with
      | some buffered => refLocations word e.1 buffered
      | none =>
        if startsLit fileScheme e.1 then
          match lookupAssoc disk (e.1.drop 7) with
          | some c => refLocations word e.1 c
          | none => []
        else [])

/-- The disk-only References behaviour the code actually implements, stated
spec-style: every indexed `file://` key contributes a scan of its on-disk
content; other keys and unreadable files contribute nothing; open-document
buffers of indexed files are never consulted. -/
def onReferencesDiskSpec (docs disk : List (JSStr × JSStr)) (idx : WorkspaceIndex)
    (uri : JSStr) (posLine posChar : Nat) : List Loc :=
  match lookupAssoc docs uri with
  | none => []
  | some text =>
    let lineText := (splitNl text).getD posLine []
    let word := getWordAtPosition lineText posChar
    idx.fileSymbols.flatMap (fun e =>
      if startsLit fileScheme e.1 then
        match lookupAssoc disk (e.1.drop 7) with
        | some c => refLocations word e.1 c
        | none => []
      else [])

/-! ## Diagnostics (`validateTextDocument`) -/

/-- `DiagnosticSeverity` codes. -/
def sevError : Nat := 1
def sevWarning : Nat := 2
def sevInformation : Nat := 3

/-- The payload of each diagnostic message, carrying the data the JS code
interpolates into the message string. -/
inductive DiagMsg where
  /-- VB001 `Variable declared without explicit type`. -/
  | missingType
  /-- VB002 `Function without explicit return type`. -/
  | missingReturnType
  /-- VB003 mismatched `End` (expected block type, found end type). -/
  | mismatchedEnd (expected found : JSStr)
  /-- VB003 missing `End` for a still-open block. -/
  | missingEnd (blockType : JSStr)
  /-- VB004 declared-but-never-used variable. -/
  | unusedVariable (name : JSStr)
  deriving DecidableEq, Repr

structure Diagnostic where
  severity : Nat
  startLine : Nat
  startChar : Nat
  endLine : Nat
  endChar : Nat
  msg : DiagMsg
  code : JSStr
  deriving DecidableEq, Repr

/-- The `diagnostics` branch of the configuration, with its defaults. -/
structure DiagConfig where
  enabled : Bool
  checkMissingTypes : Bool
  checkUnusedVariables : Bool
  checkMissingEndStatements : Bool
  deriving DecidableEq, Repr

def defaultDiagConfig : DiagConfig :=
  { enabled := true, checkMissingTypes := true
    checkUnusedVariables := true, checkMissingEndStatements := true }

/-- `/^\s*Dim\s+\w+\s*$/i` (on the trimmed line). -/
def vb001Test (line : JSStr) : Bool :=
  match eatCI kwDim line with
  | none => false
  | some (_, r) =>
    match wordAfterSpaces1 r with
    | none => false
    | some (_, r2) => (spanP isSpaceCh r2).2.isEmpty

/-- `(Public|Private)?` with no following-space requirement (the VB001–VB003
header regexes), returning the rest. -/
def modHeaderOpt (s : JSStr) : JSStr :=
  match eatCI kwPublic s with
  | some (_, r) => r
  | none =>
    match eatCI kwPrivate s with
    | some (_, r) => r
    | none => s

/-- `/^\s*(Public|Private)?\s*Function\s+\w+\s*\(/i && !line.includes(' As ')`. -/
def vb002Test (line : JSStr) : Bool :=
  (match eatCI kwFunctionW (spanP isSpaceCh (modHeaderOpt line)).2 with
   | none => false
   | some (_, r1) =>
     match wordAfterSpaces1 r1 with
     | none => false
     | some (_, r2) =>
       match (spanP isSpaceCh r2).2 with
       | '(' :: _ => true
       | _ => false) &&
  !(containsSeq line (" As ".toList))

/-- `/^\s*(Public|Private)?\s*KW\s+\w+/i` — the VB003 block-opening tests. -/
def blockOpenTest (kw line : JSStr) : Bool :=
  match eatCI kw (spanP isSpaceCh (modHeaderOpt line)).2 with
  | none => false
  | some (_, r1) => (wordAfterSpaces1 r1).isSome

/-- `/^\s*If\s+.*\s+Then\s*$/i`: after `If`, a space first, anything, then a
space immediately before a final `Then` (module trailing whitespace). -/
def ifOpenTest (line : JSStr) : Bool :=
  match eatCI kwIfW line with
  | none => false
  | some (_, r) =>
    let r2 := (r.reverse.dropWhile isSpaceCh).reverse
    let n := r2.length
    decide (6 ≤ n) && ciEqStr (r2.drop (n - 4)) kwThenW &&
      isSpaceCh (r2.getD (n - 5) 'x') && isSpaceCh (r2.getD 0 'x')

/-- `/^\s*For\s+/i` (and the analogous `While` test). -/
def kwThenSpaceTest (kw line : JSStr) : Bool :=
  match eatCI kw line with
  | none => false
  | some (_, r) => !(spanP isSpaceCh r).1.isEmpty

/-- `/^\s*End\s+(Class|Module|Function|Sub|If|For|While)/i`, and on success the
recapture `/^\s*End\s+(\w+)/i` giving the full end-type word. -/
def endTypeOf (line : JSStr) : Option JSStr :=
  match eatCI kwEndW line with
  | none => none
  | some (_, r) =>
    let sp := spanP isSpaceCh r
    if sp.1.isEmpty then none
    else if [kwClassW, kwModuleW, kwFunctionW, kwSubW, kwIfW, kwForW, kwWhileW].any
        (fun k => (eatCI k sp.2).isSome) then
      let w := spanP isWordCh sp.2
      if w.1.isEmpty then none else some w.1
    else none

/-- `/^\s*Dim\s+(\w+)/i` — the VB004 declaration capture. -/
def vb004Dim (line : JSStr) : Option JSStr :=
  match eatCI kwDim line with
  | none => none
  | some (_, r) => (wordAfterSpaces1 r).map (fun p => p.1)

/-- Declared-variables map: name → (declaration line, used flag). -/
abbrev DeclMap := List (JSStr × Nat × Bool)

/-- The VB004 update for one non-comment line: a `Dim` line (re)declares its
variable as unused; any other line marks every variable already in the map
whose name occurs as a case-insensitive whole word. -/
def vb004Step (declared : DeclMap) (i : Nat) (line : JSStr) : DeclMap :=
  match vb004Dim line with
  | some name => setAssoc declared name (i, false)
  | none =>
    declared.map (fun e => if wholeWordTest e.1 line then (e.1, e.2.1, true) else e)

/-- `line.startsWith("'") || line.startsWith('REM ')`. -/
def isCommentLine (line : JSStr) : Bool :=
  startsLit [apoCh] line || startsLit ("REM ".toList) line

/-- The VB004 declaration/usage pass, line by line from index `i`. -/
def vb004Go : DeclMap → Nat → List JSStr → DeclMap
  | d, _, [] => d
  | d, i, raw :: rest =>
    let line := jsTrim raw
    vb004Go (if isCommentLine line then d else vb004Step d i line) (i + 1) rest

/-- The VB004 declaration/usage pass over a whole document (text split into
raw lines; each is trimmed, comments are skipped). -/
def vb004Map (rawLines : List JSStr) : DeclMap := vb004Go [] 0 rawLines

/-- The VB003 stack of open blocks, in array order (top = last). -/
abbrev BlockStack := List (JSStr × Nat)

/-- Running state of the `validateTextDocument` loop. -/
structure ValSt where
  blockStack : BlockStack
  declared : DeclMap
  deriving Repr

/-- The VB003 branch for one non-comment line: push for each block opener,
else handle an `End` marker — pop on a match, emit a mismatch diagnostic (and
do not pop) otherwise; nothing happens on an `End` with an empty stack. -/
def vb003Step (stack : BlockStack) (i rawLen : Nat) (line : JSStr) :
    BlockStack × Option Diagnostic :=
  if blockOpenTest kwClassW line then (stack ++ [(kwClassW, i)], none)
  else if blockOpenTest kwModuleW line then (stack ++ [(kwModuleW, i)], none)
  else if blockOpenTest kwFunctionW line then (stack ++ [(kwFunctionW, i)], none)
  else if blockOpenTest kwSubW line then (stack ++ [(kwSubW, i)], none)
  else if ifOpenTest line then (stack ++ [(kwIfW, i)], none)
  else if kwThenSpaceTest kwForW line then (stack ++ [(kwForW, i)], none)
  else if kwThenSpaceTest kwWhileW line then (stack ++ [(kwWhileW, i)], none)
  else
    match endTypeOf line with
    | none => (stack, none)
    | some endType =>
      match stack.getLast? with
      | none => (stack, none)
      | some top =>
        if ciEqStr top.1 endType then (stack.dropLast, none)
        else
          (stack, some { severity := sevError, startLine := i, startChar := 0
                         endLine := i, endChar := rawLen
                         msg := DiagMsg.mismatchedEnd top.1 endType
                         code := "VB003".toList })

/-- The per-line body of `validateTextDocument`, producing the diagnostics of
this line (in emission order) and the updated state. -/
def valLine (cfg : DiagConfig) (st : ValSt) (i : Nat) (raw : JSStr) :
    ValSt × List Diagnostic :=
  let line := jsTrim raw
  if isCommentLine line then (st, [])
  else
    let d1 : List Diagnostic :=
      if cfg.checkMissingTypes && vb001Test line then
        [{ severity := sevWarning, startLine := i, startChar := 0
           endLine := i, endChar := raw.length
           msg := DiagMsg.missingType, code := "VB001".toList }]
      else []
    let d2 : List Diagnostic :=
      if cfg.checkMissingTypes && vb002Test line then
        [{ severity := sevWarning, startLine := i, startChar := 0
           endLine := i, endChar := raw.length
           msg := DiagMsg.missingReturnType, code := "VB002".toList }]
      else []
    let s3 :=
      if cfg.checkMissingEndStatements then vb003Step st.blockStack i raw.length line
      else (st.blockStack, none)
    let declared' :=
      if cfg.checkUnusedVariables then vb004Step st.declared i line else st.declared
    ({ blockStack := s3.1, declared := declared' },
     d1 ++ d2 ++ (s3.2.map (fun d => [d])).getD [])

/-- The line loop of `validateTextDocument`. -/
def valGo (cfg : DiagConfig) : Nat → ValSt → List JSStr → ValSt × List Diagnostic
  | _, st, [] => (st, [])
  | i, st, raw :: rest =>
    let s := valLine cfg st i raw
    let r := valGo cfg (i + 1) s.1 rest
    (r.1, s.2 ++ r.2)

/-- `validateTextDocument` with an explicit configuration: the full published
diagnostic list (when diagnostics are disabled nothing is published). -/
def validateTextDocument (cfg : DiagConfig) (text : JSStr) : List Diagnostic :=
  if !cfg.enabled then []
  else
    let rawLines := splitNl text
    let r := valGo cfg 0 { blockStack := [], declared := [] } rawLines
    r.2 ++
      (if cfg.checkMissingEndStatements then
        r.1.blockStack.map (fun b =>
          { severity := sevError, startLine := b.2, startChar := 0
            endLine := b.2, endChar := (rawLines.getD b.2 []).length
            msg := DiagMsg.missingEnd b.1, code := "VB003".toList })
      else []) ++
      (if cfg.checkUnusedVariables then
        (r.1.declared.filter (fun e => !e.2.2)).map (fun e =>
          { severity := sevInformation, startLine := e.2.1, startChar := 0
            endLine := e.2.1, endChar := (rawLines.getD e.2.1 []).length
            msg := DiagMsg.unusedVariable e.1, code := "VB004".toList })
      else [])

/-! ## Index lifecycle (`indexFile`, content change, close, watched files) -/

/-- The index-mutating operations, each carrying the text the server observes
at that moment.  `readFailed` stands for any operation whose file read threw
or whose path was rejected — the handler logs and leaves the index untouched. -/
inductive IndexOp where
  | indexFileOk (path content : JSStr)
  | readFailed
  | didChange (uri text : JSStr)
  | didClose (uri : JSStr)
  | watchedDelete (uri : JSStr)

/-- Effect of one operation on `workspaceIndex.fileSymbols`:
`indexFile` / `onDidChangeContent` replace the entry wholesale with a full
reparse, `onDidClose` and a watched delete remove it. -/
def applyOp (op : IndexOp) (fs : List (JSStr × List ProjectSymbol)) :
    List (JSStr × List ProjectSymbol) :=
  match op with
  | IndexOp.indexFileOk path content =>
    setAssoc fs (fileScheme ++ path) (parseDocumentSymbols content (fileScheme ++ path))
  | IndexOp.readFailed => fs
  | IndexOp.didChange uri text => setAssoc fs uri (parseDocumentSymbols text uri)
  | IndexOp.didClose uri => delAssoc fs uri
  | IndexOp.watchedDelete uri => delAssoc fs uri

/-- Ghost state: the authoritative current text per file identifier. -/
def applyOpText (op : IndexOp) (t : List (JSStr × JSStr)) : List (JSStr × JSStr) :=
  match op with
  | IndexOp.indexFileOk path content => setAssoc t (fileScheme ++ path) content
  | IndexOp.readFailed => t
  | IndexOp.didChange uri text => setAssoc t uri text
  | IndexOp.didClose uri => delAssoc t uri
  | IndexOp.watchedDelete uri => delAssoc t uri

/-- The index invariant of the spec: every key of `fileSymbols` maps to the
complete parse of that file's current full text. -/
def IndexInv (fs : List (JSStr × List ProjectSymbol)) (t : List (JSStr × JSStr)) : Prop :=
  ∀ uri : JSStr,
    lookupAssoc fs uri = (lookupAssoc t uri).map (fun c => parseDocumentSymbols c uri)

/-! ## Claim-specific fixtures and spec predicates -/

/-- Is `d` a VB003 mismatched-`End` diagnostic? -/
def isMismatchDiag (d : Diagnostic) : Bool :=
  match d.msg with
  | DiagMsg.mismatchedEnd _ _ => true
  | _ => false

/-- Is `d` a VB004 unused-variable diagnostic? -/
def isUnusedDiag (d : Diagnostic) : Bool :=
  match d.msg with
  | DiagMsg.unusedVariable _ => true
  | _ => false

/-- Fixture for the lookup-precedence claim: a file declaring a variable named
`String`, which also names a built-in catalog type. -/
def c2uri : JSStr := "file:///a.vb".toList

def c2idx : WorkspaceIndex :=
  { symbols := builtinCatalog
    fileSymbols := [(c2uri, parseDocumentSymbols ("Dim String As Integer".toList) c2uri)] }

/-- Fixture for the References claim: the querying document is open with
buffer text `foo`, while its on-disk content is `bar`. -/
def c8uri : JSStr := "file:///a.vb".toList
def c8docs : List (JSStr × JSStr) := [(c8uri, "foo".toList)]
def c8disk : List (JSStr × JSStr) := [("/a.vb".toList, "bar".toList)]
def c8idx : WorkspaceIndex := { symbols := [], fileSymbols := [(c8uri, [])] }

/-- A second open-document map agreeing with `c8docs` on the querying uri but
holding an extra open buffer for another indexed file. -/
def c8docsB : List (JSStr × JSStr) :=
  [(c8uri, "foo".toList), ("file:///b.vb".toList, "foo foo".toList)]

/-- Does this raw line, once trimmed, mark variable `name` as used in the
VB004 pass: a non-comment line that is not itself a `Dim` declaration and
contains a case-insensitive whole-word occurrence of `name`? -/
def usagePred (raw name : JSStr) : Prop :=
  ¬(isCommentLine (jsTrim raw) = true) ∧ vb004Dim (jsTrim raw) = none ∧
    wholeWordTest name (jsTrim raw) = true

/-- Does this raw line, once trimmed, declare variable `name` in the VB004
pass (a non-comment line whose `Dim` capture is `name`)? -/
def declPred (raw name : JSStr) : Prop :=
  ¬(isCommentLine (jsTrim raw) = true) ∧ vb004Dim (jsTrim raw) = some name

/-- Identifier strings: nonempty runs of word characters — exactly what the
`(\w+)` capture of each declaration regex produces. -/
def IsIdent (w : JSStr) : Prop := w ≠ [] ∧ ∀ c ∈ w, isWordCh c = true

/-- The nine single-construct declaration lines of the parser claim,
parameterised by the declared identifier. -/
def moduleLine (w : JSStr) : JSStr := "Module ".toList ++ w
def classLine (w : JSStr) : JSStr := "Class ".toList ++ w
def propertyLine (w : JSStr) : JSStr := "Property Get ".toList ++ w
def functionLine (w : JSStr) : JSStr := "Function ".toList ++ w ++ "()".toList
def subLine (w : JSStr) : JSStr := "Sub ".toList ++ w ++ "()".toList
def dimLine (w : JSStr) : JSStr := "Dim ".toList ++ w
def constLine (w : JSStr) : JSStr := "Const ".toList ++ w ++ " = 1".toList
def enumLine (w : JSStr) : JSStr := "Enum ".toList ++ w
def typeLine (w : JSStr) : JSStr := "Type ".toList ++ w

/-- The modifier-prefixed subroutine line on which the variable branch fires a
second time. -/
def privateSubLine (w : JSStr) : JSStr := "Private Sub ".toList ++ w ++ "()".toList

/-- Name and kind of each symbol a parse produces — the observables of the
parser claim. -/
def nameKinds (syms : List ProjectSymbol) : List (JSStr × Nat) :=
  syms.map (fun s => (s.name, s.kind))

/-! ## Theorems -/

set_option maxRecDepth 10000

/-- Rate-limit run with all arrivals inside the window that started at `t0`:
no reset ever fires, the counter just counts, and the `i`-th message (with
`c` messages counted before the run) trips the limit iff `R < c + i + 1`. -/
theorem runRL_within (W R t0 : Nat) (ts : List Nat) (c : Nat)
    (h : ∀ t ∈ ts, t - t0 ≤ W) :
    runRL W R ⟨t0, c⟩ ts
      = ((List.range ts.length).map (fun i => decide (R < c + i + 1)),
         ⟨t0, c + ts.length⟩) := by
  induction ts generalizing c with
  | nil => simp [runRL]
  | cons t ts ih =>
    have ht : ¬ W < t - t0 := Nat.not_lt.mpr (h t (by simp))
    have h' : ∀ x ∈ ts, x - t0 ≤ W := fun x hx => h x (by simp [hx])
    have hstep : rateStep W R ⟨t0, c⟩ t = (⟨t0, c + 1⟩, decide (R < c + 1)) := by
      simp [rateStep, rateUpdate, ht]
    have := ih (c + 1) h'
    simp only [runRL, hstep, this, List.length_cons, List.range_succ_eq_map,
      List.map_cons, List.map_map]
    refine congrArg₂ Prod.mk ?_ ?_
    · refine congrArg₂ List.cons ?_ ?_
      · exact decide_eq_decide.mpr (by omega)
      · refine List.map_congr_left (fun i _ => ?_)
        simp only [Function.comp_apply]
        exact decide_eq_decide.mpr (by omega)
    · have : c + 1 + ts.length = c + (ts.length + 1) := by omega
      rw [this]

/-- Claim C3 — rate limiting: with window `W` and threshold `R ≥ 1`, any run
of at most `R` messages arriving within one window (all at `t` with
`t - t0 ≤ W`, `t0` the window start) is fully accepted; a run of exactly
`R + 1` such messages is accepted `R` times and the `(R+1)`-th trips the
limit and closes the session; and from any state in which more than `W` has
elapsed, the counter resets, so that message is accepted and starts a fresh
window. -/
theorem rate_limit_window_behaviour (W R t0 : Nat) (ts : List Nat) (hR : 0 < R)
    (hwin : ∀ t ∈ ts, t - t0 ≤ W) :
    (ts.length ≤ R → (runRL W R ⟨t0, 0⟩ ts).1 = List.replicate ts.length false)
  ∧ (ts.length = R + 1 →
      (runRL W R ⟨t0, 0⟩ ts).1 = List.replicate R false ++ [true])
  ∧ (∀ st : RLState, ∀ now : Nat, W < now - st.windowStart →
      rateStep W R st now = (⟨now, 1⟩, false)) := by
  have hrun := runRL_within W R t0 ts 0 hwin
  have hfalse : ∀ n, n ≤ R →
      (List.range n).map (fun i => decide (R < 0 + i + 1)) = List.replicate n false := by
    intro n hn
    have : ∀ b ∈ (List.range n).map (fun i => decide (R < 0 + i + 1)), b = false := by
      intro b hb
      rcases List.mem_map.mp hb with ⟨i, hi, rfl⟩
      have : i < n := List.mem_range.mp hi
      simp only [decide_eq_false_iff_not]
      omega
    calc (List.range n).map (fun i => decide (R < 0 + i + 1))
        = List.replicate ((List.range n).map (fun i => decide (R < 0 + i + 1))).length false :=
          List.eq_replicate_of_mem this
      _ = List.replicate n false := by simp
  refine ⟨?_, ?_, ?_⟩
  · intro hlen
    rw [hrun]
    exact hfalse ts.length hlen
  · intro hlen
    rw [hrun, hlen, List.range_succ, List.map_append]
    have h1 := hfalse R (Nat.le_refl R)
    rw [h1]
    simp
  · intro st now hnow
    simp [rateStep, rateUpdate, hnow, Nat.not_lt.mpr hR]

/-- Witness for the rate-limit claim at the bridge's actual constants:
101 messages arriving at the very start of the window are accepted 100 times
and the 101st closes the session. -/
theorem rate_limit_window_behaviour_witness :
    (runRL RATE_LIMIT_WINDOW RATE_LIMIT_MAX_REQUESTS ⟨0, 0⟩
        (List.replicate 101 0)).1
      = List.replicate 100 false ++ [true] :=
  (rate_limit_window_behaviour RATE_LIMIT_WINDOW RATE_LIMIT_MAX_REQUESTS 0
      (List.replicate 101 0) (by decide)
      (by intro t ht; rw [List.eq_of_mem_replicate ht]; simp)).2.1
    (by decide)

/-- One message through the socket handler: the rate-limit state evolves
exactly as `rateUpdate`, and the close decision is exactly the rate-limit
test — neither depends on the payload, the parse result, or the worker. -/
theorem handleMessage_rate (W R : Nat) (parse : JSStr → Option Envelope)
    (alive : Bool) (st : RLState) (now : Nat) (msg : JSStr) :
    (handleMessage W R parse alive st now msg).1 = rateUpdate W st now
  ∧ (decide ((handleMessage W R parse alive st now msg).2 = MsgAction.close)
      = decide (R < (rateUpdate W st now).messageCount)) := by
  unfold handleMessage
  by_cases h : R < (rateUpdate W st now).messageCount
  · simp [h]
  · cases hp : parse msg with
    | none => simp [h, hp]
    | some e =>
      by_cases hj : (e.jsonrpc && e.method) = true <;> cases alive <;>
        simp [h, hp, hj]

/-- Claim C10 — the rate-limit counter is incremented before envelope
validation: over any message sequence, which messages close the session (and
the final counter state) are exactly those of the pure rate-limit run on the
arrival times, for every parse function — in particular when every message
is malformed and dropped. -/
theorem counter_counts_malformed (W R : Nat) (parse : JSStr → Option Envelope)
    (alive : Bool) (st : RLState) (msgs : List (Nat × JSStr)) :
    ((runHandler W R parse alive st msgs).1.map
        (fun a => decide (a = MsgAction.close))
      = (runRL W R st (msgs.map Prod.fst)).1)
  ∧ (runHandler W R parse alive st msgs).2 = (runRL W R st (msgs.map Prod.fst)).2 := by
  induction msgs generalizing st with
  | nil => simp [runHandler, runRL]
  | cons m ms ih =>
    have h := handleMessage_rate W R parse alive st m.1 m.2
    have hih := ih (handleMessage W R parse alive st m.1 m.2).1
    simp only [runHandler, runRL, List.map_cons, List.map]
    constructor
    · rw [h.2, hih.1, h.1]
      rfl
    · rw [hih.2, h.1]
      rfl

/-- Claim C7 (amended) — envelope validation on a message that does not trip
the rate limit: a malformed message (unparseable, or with a falsy
protocol-version tag or method) is dropped — nothing is written to the
worker and the connection is not closed, only a warning is logged; a
well-formed message is forwarded to the worker's stdin as the
`Content-Length` header followed by the payload.  (A message that does trip
the limit closes the session even when malformed — see the counterexample
and claim C10.) -/
theorem envelope_validation_behaviour (W R : Nat) (parse : JSStr → Option Envelope)
    (st : RLState) (now : Nat) (msg : JSStr)
    (hlim : (rateUpdate W st now).messageCount ≤ R) :
    ((parse msg = none ∨ ∃ e, parse msg = some e ∧ (e.jsonrpc && e.method) = false) →
      (handleMessage W R parse true st now msg).2 = MsgAction.drop)
  ∧ (∀ e, parse msg = some e → e.jsonrpc = true → e.method = true →
      (handleMessage W R parse true st now msg).2
        = MsgAction.forward (encodeLSP msg)) := by
  have hno : ¬ R < (rateUpdate W st now).messageCount := Nat.not_lt.mpr hlim
  constructor
  · rintro (hp | ⟨e, hp, hf⟩)
    · simp [handleMessage, hno, hp]
    · have hne : ¬ (e.jsonrpc = true ∧ e.method = true) := by
        intro hc
        rw [hc.1, hc.2] at hf
        simp at hf
      simp [handleMessage, hno, hp, hne]
  · intro e hp hj hm
    simp [handleMessage, hno, hp, hj, hm]

/-- Counterexample to claim C7 as stated: with the bridge's constants, a run
of 101 messages that are all malformed (the parse function rejects
everything) still ends with the session being closed — the 101st malformed
message closes the connection rather than being dropped. -/
theorem envelope_validation_counterexample :
    (runHandler RATE_LIMIT_WINDOW RATE_LIMIT_MAX_REQUESTS (fun _ => none) true
        ⟨0, 0⟩ (List.replicate 101 (0, ['x']))).1.getLast?
      = some MsgAction.close := by decide

/-- Witness for the amended envelope-validation claim: on a fresh session a
malformed message is dropped and a well-formed one is forwarded framed. -/
theorem envelope_validation_behaviour_witness :
    (handleMessage RATE_LIMIT_WINDOW RATE_LIMIT_MAX_REQUESTS (fun _ => none) true
        ⟨0, 0⟩ 0 ['x']).2 = MsgAction.drop
  ∧ (handleMessage RATE_LIMIT_WINDOW RATE_LIMIT_MAX_REQUESTS
        (fun _ => some { jsonrpc := true, method := true }) true
        ⟨0, 0⟩ 0 ['x']).2 = MsgAction.forward (encodeLSP ['x']) :=
  ⟨(envelope_validation_behaviour RATE_LIMIT_WINDOW RATE_LIMIT_MAX_REQUESTS
      (fun _ => none) ⟨0, 0⟩ 0 ['x'] (by decide)).1 (Or.inl rfl),
   (envelope_validation_behaviour RATE_LIMIT_WINDOW RATE_LIMIT_MAX_REQUESTS
      (fun _ => some { jsonrpc := true, method := true }) ⟨0, 0⟩ 0 ['x']
      (by decide)).2 { jsonrpc := true, method := true } rfl rfl rfl⟩

/-- Claim C5 — end-matching diagnostics at the default configuration:
`"Class Foo\nEnd Class"` validates clean; `"Class Foo\nEnd Sub"` yields
exactly one mismatched-`End` diagnostic, anchored at the `End Sub` line
(index 1, i.e. line 2 of the document) — the still-open `Class` block
additionally yields its own missing-`End` diagnostic, which is the only
other diagnostic; and `"Class Foo"` yields exactly one missing-`End`
diagnostic anchored at the `Class Foo` line (index 0, line 1). -/
theorem end_matching_diagnostics :
    validateTextDocument defaultDiagConfig ("Class Foo\nEnd Class".toList) = []
  ∧ (validateTextDocument defaultDiagConfig ("Class Foo\nEnd Sub".toList)).filter
        isMismatchDiag
      = [{ severity := sevError, startLine := 1, startChar := 0, endLine := 1
           endChar := 7, msg := DiagMsg.mismatchedEnd ("Class".toList) ("Sub".toList)
           code := "VB003".toList }]
  ∧ validateTextDocument defaultDiagConfig ("Class Foo\nEnd Sub".toList)
      = [{ severity := sevError, startLine := 1, startChar := 0, endLine := 1
           endChar := 7, msg := DiagMsg.mismatchedEnd ("Class".toList) ("Sub".toList)
           code := "VB003".toList },
         { severity := sevError, startLine := 0, startChar := 0, endLine := 0
           endChar := 9, msg := DiagMsg.missingEnd ("Class".toList)
           code := "VB003".toList }]
  ∧ validateTextDocument defaultDiagConfig ("Class Foo".toList)
      = [{ severity := sevError, startLine := 0, startChar := 0, endLine := 0
           endChar := 9, msg := DiagMsg.missingEnd ("Class".toList)
           code := "VB003".toList }] := by decide

/-- A symbol-map scan finds nothing when no entry contains a matching name. -/
theorem findInEntries_eq_none (name : JSStr)
    (es : List (JSStr × List ProjectSymbol))
    (h : ∀ e ∈ es, findByName name e.2 = none) :
    findInEntries name es = none := by
  induction es with
  | nil => rfl
  | cons e es ih =>
    have he : findByName name e.2 = none := h e (by simp)
    simp only [findInEntries, he]
    exact ih (fun x hx => h x (by simp [hx]))

/-- Claim C2 (amended) — lookup precedence.  `findSymbol` (used by definition
and member resolution) searches the querying file's entry first, then every
indexed file, then the built-in catalog, so a name present in the current
file resolves to the current-file symbol there, and a name absent from every
file entry resolves to the first catalog match.  `connection.onHover`,
however, scans the built-in catalog *before* calling `findSymbol`, so for
hover a name present in the catalog always resolves to the catalog symbol. -/
theorem lookup_precedence (idx : WorkspaceIndex) (name uri : JSStr) :
    ((findByName name ((lookupAssoc idx.fileSymbols uri).getD [])).isSome →
      findSymbol idx name uri
        = findByName name ((lookupAssoc idx.fileSymbols uri).getD []))
  ∧ ((∀ e ∈ idx.fileSymbols, findByName name e.2 = none) →
      findSymbol idx name uri = findInEntries name idx.symbols)
  ∧ ((findInEntries name idx.symbols).isSome →
      hoverSymbol idx name uri = findInEntries name idx.symbols)
  ∧ (findInEntries name idx.symbols = none →
      hoverSymbol idx name uri = findSymbol idx name uri) := by
  refine ⟨?_, ?_, ?_, ?_⟩
  · intro h
    obtain ⟨s, hs⟩ := Option.isSome_iff_exists.mp h
    simp [findSymbol, hs]
  · intro h
    have hcur : findByName name ((lookupAssoc idx.fileSymbols uri).getD []) = none := by
      cases hl : lookupAssoc idx.fileSymbols uri with
      | none => rfl
      | some syms =>
        unfold lookupAssoc at hl
        cases hf : idx.fileSymbols.find? (fun p => p.1 == uri) with
        | none => rw [hf] at hl; simp at hl
        | some p =>
          rw [hf] at hl
          simp at hl
          have hmem : p ∈ idx.fileSymbols := List.mem_of_find?_eq_some hf
          have := h p hmem
          simp only [Option.getD_some]
          rw [hl] at this
          exact this
    have hall : findInEntries name idx.fileSymbols = none :=
      findInEntries_eq_none name idx.fileSymbols h
    simp [findSymbol, hcur, hall]
  · intro h
    obtain ⟨s, hs⟩ := Option.isSome_iff_exists.mp h
    simp [hoverSymbol, hs]
  · intro h
    simp [hoverSymbol, h]

/-- Counterexample to claim C2 as stated: in an index whose current file
declares a variable named `String` (which also names a catalog built-in), a
hover query resolves to the catalog's `String` class symbol, not to the
current file's variable symbol as the claimed lookup order requires. -/
theorem lookup_precedence_counterexample :
    (hoverSymbol c2idx ("String".toList) c2uri).map (fun s => s.kind)
        = some kindClass
  ∧ (findByName ("String".toList) ((lookupAssoc c2idx.fileSymbols c2uri).getD [])).map
        (fun s => s.kind) = some kindVariable
  ∧ hoverSymbol c2idx ("String".toList) c2uri
      ≠ findByName ("String".toList) ((lookupAssoc c2idx.fileSymbols c2uri).getD []) := by
  decide

/-- Witness for the amended lookup-precedence claim at the fixture index:
definition lookup does return the current file's symbol, and hover does
return the catalog's. -/
theorem lookup_precedence_witness :
    findSymbol c2idx ("String".toList) c2uri
        = findByName ("String".toList) ((lookupAssoc c2idx.fileSymbols c2uri).getD [])
  ∧ hoverSymbol c2idx ("String".toList) c2uri
      = findInEntries ("String".toList) c2idx.symbols :=
  ⟨(lookup_precedence c2idx ("String".toList) c2uri).1 (by decide),
   (lookup_precedence c2idx ("String".toList) c2uri).2.2.1 (by decide)⟩

/-- A key absent from an association list (JS `Map`) looks up to nothing. -/
theorem lookupAssoc_eq_none_of_any_false {α : Type} (m : List (JSStr × α)) (k : JSStr)
    (h : m.any (fun e => e.1 == k) = false) : lookupAssoc m k = none := by
  induction m with
  | nil => rfl
  | cons a m ih =>
    simp only [List.any_cons, Bool.or_eq_false_iff] at h
    simp only [lookupAssoc, List.find?_cons, h.1]
    exact ih h.2

/-- `lookupAssoc` on a cons whose head key matches. -/
theorem lookupAssoc_cons_eq {α : Type} (a : JSStr × α) (m : List (JSStr × α))
    (k : JSStr) (h : a.1 = k) : lookupAssoc (a :: m) k = some a.2 := by
  unfold lookupAssoc
  rw [List.find?_cons_of_pos _ (by simp [h])]
  rfl

/-- `lookupAssoc` on a cons whose head key differs. -/
theorem lookupAssoc_cons_ne {α : Type} (a : JSStr × α) (m : List (JSStr × α))
    (k : JSStr) (h : ¬ a.1 = k) : lookupAssoc (a :: m) k = lookupAssoc m k := by
  unfold lookupAssoc
  rw [List.find?_cons_of_neg _ (by simp [h])]

/-- Replacing the value at key `k` leaves lookups of other keys unchanged. -/
theorem lookupAssoc_map_replace_ne {α : Type} (m : List (JSStr × α)) (k k' : JSStr)
    (v : α) (hne : k' ≠ k) :
    lookupAssoc (m.map (fun e => if e.1 == k then (k, v) else e)) k'
      = lookupAssoc m k' := by
  induction m with
  | nil => rfl
  | cons a m ih =>
    rw [List.map_cons]
    by_cases ha : a.1 = k
    · rw [if_pos (by simp [ha]), lookupAssoc_cons_ne _ _ _ (fun hc => hne hc.symm),
        lookupAssoc_cons_ne _ _ _ (by rw [ha]; exact fun hc => hne hc.symm)]
      exact ih
    · rw [if_neg (by simp [ha])]
      by_cases hk : a.1 = k'
      · rw [lookupAssoc_cons_eq _ _ _ hk, lookupAssoc_cons_eq _ _ _ hk]
      · rw [lookupAssoc_cons_ne _ _ _ hk, lookupAssoc_cons_ne _ _ _ hk]
        exact ih

/-- Replacing the value at a present key makes that key look up to the new
value. -/
theorem lookupAssoc_map_replace_eq {α : Type} (m : List (JSStr × α)) (k : JSStr)
    (v : α) (h : m.any (fun e => e.1 == k) = true) :
    lookupAssoc (m.map (fun e => if e.1 == k then (k, v) else e)) k = some v := by
  induction m with
  | nil => simp at h
  | cons a m ih =>
    rw [List.map_cons]
    by_cases ha : a.1 = k
    · rw [if_pos (by simp [ha]), lookupAssoc_cons_eq _ _ _ rfl]
    · rw [if_neg (by simp [ha]), lookupAssoc_cons_ne _ _ _ ha]
      refine ih ?_
      simp only [List.any_cons, Bool.or_eq_true] at h
      rcases h with h | h
      · exact absurd (beq_iff_eq.mp h) ha
      · exact h

/-- Looking up after appending a single binding. -/
theorem lookupAssoc_append_single {α : Type} (m : List (JSStr × α)) (k k' : JSStr)
    (v : α) :
    lookupAssoc (m ++ [(k, v)]) k'
      = ((lookupAssoc m k').orElse (fun _ => if k' = k then some v else none)) := by
  induction m with
  | nil =>
    by_cases hk : k' = k
    · rw [List.nil_append, lookupAssoc_cons_eq _ _ _ hk.symm]
      simp [lookupAssoc, hk, Option.orElse]
    · rw [List.nil_append, lookupAssoc_cons_ne _ _ _ (fun hc => hk hc.symm)]
      simp [lookupAssoc, hk, Option.orElse]
  | cons a m ih =>
    rw [List.cons_append]
    by_cases hk : a.1 = k'
    · rw [lookupAssoc_cons_eq _ _ _ hk, lookupAssoc_cons_eq _ _ _ hk]
      rfl
    · rw [lookupAssoc_cons_ne _ _ _ hk, lookupAssoc_cons_ne _ _ _ hk]
      exact ih

/-- `Map.set` then `Map.get`: the set key yields the new value, all others are
untouched. -/
theorem lookupAssoc_setAssoc {α : Type} (m : List (JSStr × α)) (k k' : JSStr) (v : α) :
    lookupAssoc (setAssoc m k v) k' = if k' = k then some v else lookupAssoc m k' := by
  unfold setAssoc
  cases hmem : m.any (fun e => e.1 == k) with
  | true =>
    simp only [if_true]
    by_cases hk : k' = k
    · rw [if_pos hk, hk]
      exact lookupAssoc_map_replace_eq m k v hmem
    · rw [if_neg hk]
      exact lookupAssoc_map_replace_ne m k k' v hk
  | false =>
    simp only [Bool.false_eq_true, if_false]
    have hnone : lookupAssoc m k = none := lookupAssoc_eq_none_of_any_false m k hmem
    rw [lookupAssoc_append_single]
    by_cases hk : k' = k
    · subst hk
      simp [hnone, Option.orElse]
    · simp only [hk, if_false]
      cases hl : lookupAssoc m k' <;> simp [Option.orElse]

/-- `Map.delete` then `Map.get`. -/
theorem lookupAssoc_delAssoc {α : Type} (m : List (JSStr × α)) (k k' : JSStr) :
    lookupAssoc (delAssoc m k) k' = if k' = k then none else lookupAssoc m k' := by
  induction m with
  | nil => simp [delAssoc, lookupAssoc]
  | cons a m ih =>
    unfold delAssoc at *
    rw [List.filter_cons]
    by_cases ha : a.1 = k
    · rw [if_neg (by simp [ha])]
      by_cases hk : k' = k
      · simpa [hk] using ih
      · rw [show lookupAssoc (a :: m) k' = lookupAssoc m k' from
          lookupAssoc_cons_ne _ _ _ (by rw [ha]; exact fun hc => hk hc.symm)]
        simpa [hk] using ih
    · rw [if_pos (by simp [ha])]
      by_cases hk : a.1 = k'
      · rw [lookupAssoc_cons_eq _ _ _ hk, lookupAssoc_cons_eq _ _ _ hk]
        have hkk : ¬ k' = k := by
          intro hc
          exact ha (hc ▸ hk)
        rw [if_neg hkk]
      · rw [lookupAssoc_cons_ne _ _ _ hk, lookupAssoc_cons_ne _ _ _ hk]
        exact ih

/-- Claim C6 — the index invariant: if every `fileSymbols` key maps to the
parse of that file's current text, then it still does after any sequence of
index-mutating operations (initial indexing, content-change reparse, close,
watched create/change/delete, failed reads).  Each mutating operation either
replaces an entry wholesale by a full reparse of the new text or deletes it,
so no partial entry ever appears. -/
theorem index_invariant_preserved (fs : List (JSStr × List ProjectSymbol))
    (t : List (JSStr × JSStr)) (ops : List IndexOp) (h : IndexInv fs t) :
    IndexInv (ops.foldl (fun s op => applyOp op s) fs)
      (ops.foldl (fun s op => applyOpText op s) t) := by
  induction ops generalizing fs t with
  | nil => exact h
  | cons op ops ih =>
    simp only [List.foldl_cons]
    refine ih _ _ ?_
    intro uri
    cases op with
    | indexFileOk path content =>
      simp only [applyOp, applyOpText, lookupAssoc_setAssoc]
      by_cases he : uri = fileScheme ++ path
      · simp [he]
      · simp [he, h uri]
    | readFailed => exact h uri
    | didChange u text =>
      simp only [applyOp, applyOpText, lookupAssoc_setAssoc]
      by_cases he : uri = u
      · simp [he]
      · simp [he, h uri]
    | didClose u =>
      simp only [applyOp, applyOpText, lookupAssoc_delAssoc]
      by_cases he : uri = u
      · simp [he]
      · simp [he, h uri]
    | watchedDelete u =>
      simp only [applyOp, applyOpText, lookupAssoc_delAssoc]
      by_cases he : uri = u
      · simp [he]
      · simp [he, h uri]

/-- Witness for the index invariant: starting from the empty index and
running an index, a change, and a close, the invariant holds afterwards. -/
theorem index_invariant_preserved_witness :
    IndexInv
      (([IndexOp.indexFileOk ("/a.vb".toList) ("Dim x".toList),
         IndexOp.didChange ("file:///a.vb".toList) ("Dim y".toList),
         IndexOp.didClose ("file:///b.vb".toList)]).foldl
        (fun s op => applyOp op s) [])
      (([IndexOp.indexFileOk ("/a.vb".toList) ("Dim x".toList),
         IndexOp.didChange ("file:///a.vb".toList) ("Dim y".toList),
         IndexOp.didClose ("file:///b.vb".toList)]).foldl
        (fun s op => applyOpText op s) []) :=
  index_invariant_preserved [] [] _ (fun _ => rfl)

/-- A file whose content is empty contributes no reference locations. -/
theorem refLocations_nil (word uri : JSStr) : refLocations word uri [] = [] := by
  cases hw : word.isEmpty <;>
    simp [refLocations, splitNl, wholeWordHits, hw, List.enum]

/-- Claim C8 (amended) — the References handler never consults the
open-document buffers of indexed files: its result is unchanged under any
modification of the open-document map that keeps the querying document's own
buffer (which is used only to extract the queried word), and it equals the
disk-only scan: one location per case-insensitive whole-word occurrence in
the fresh on-disk content of every indexed `file://` key, with unreadable
files and non-`file://` keys contributing nothing. -/
theorem references_disk_only (docs docs2 disk : List (JSStr × JSStr))
    (idx : WorkspaceIndex) (uri : JSStr) (posLine posChar : Nat)
    (hq : lookupAssoc docs uri = lookupAssoc docs2 uri) :
    onReferences docs disk idx uri posLine posChar
      = onReferences docs2 disk idx uri posLine posChar
  ∧ onReferences docs disk idx uri posLine posChar
      = onReferencesDiskSpec docs disk idx uri posLine posChar := by
  constructor
  · unfold onReferences
    rw [hq]
  · unfold onReferences onReferencesDiskSpec
    cases lookupAssoc docs uri with
    | none => rfl
    | some text =>
      simp only []
      induction idx.fileSymbols with
      | nil => rfl
      | cons e es ih =>
        simp only [List.flatMap_cons]
        refine congrArg₂ (· ++ ·) ?_ ih
        cases hs : startsLit fileScheme e.1 with
        | false => simp [hs]
        | true =>
          simp only [hs, if_true]
          cases hd : lookupAssoc disk (e.1.drop 7) with
          | none => simp
          | some c =>
            cases hc : c.isEmpty with
            | true =>
              rw [List.isEmpty_iff.mp hc]
              simp [refLocations_nil]
            | false => simp [hc]

/-- Counterexample to claim C8 as stated: the querying file is open with
buffer `foo` and indexed, its on-disk content is `bar`, and the cursor sits
on `foo`.  The claimed buffer-first behaviour would return the occurrence of
`foo` in the open buffer; the handler reads the disk instead and returns no
references. -/
theorem references_counterexample :
    onReferences c8docs c8disk c8idx c8uri 0 0 = []
  ∧ onReferencesSpecClaimed c8docs c8disk c8idx c8uri 0 0
      = [{ uri := c8uri, startLine := 0, startChar := 0, endLine := 0, endChar := 3 }]
  ∧ onReferences c8docs c8disk c8idx c8uri 0 0
      ≠ onReferencesSpecClaimed c8docs c8disk c8idx c8uri 0 0 := by
  decide

/-- Witness for the amended References claim: adding an open buffer for
another indexed file changes nothing, and the result equals the disk-only
scan. -/
theorem references_disk_only_witness :
    onReferences c8docs c8disk c8idx c8uri 0 0
      = onReferences c8docsB c8disk c8idx c8uri 0 0
  ∧ onReferences c8docs c8disk c8idx c8uri 0 0
      = onReferencesDiskSpec c8docs c8disk c8idx c8uri 0 0 :=
  references_disk_only c8docs c8docsB c8disk c8idx c8uri 0 0 (by decide)

/-- Membership in a `Map.set` result: the new binding, or an old binding
whose key differs. -/
theorem mem_setAssoc {α : Type} (m : List (JSStr × α)) (k : JSStr) (v : α) :
    ∀ e ∈ setAssoc m k v, e = (k, v) ∨ (e ∈ m ∧ ¬ e.1 = k) := by
  intro e he
  unfold setAssoc at he
  cases hmem : m.any (fun x => x.1 == k) with
  | true =>
    rw [hmem, if_pos rfl] at he
    rcases List.mem_map.mp he with ⟨x, hx, hfx⟩
    by_cases hk : x.1 = k
    · left
      rw [← hfx, if_pos (by simp [hk])]
    · right
      rw [← hfx, if_neg (by simp [hk])]
      exact ⟨hx, hk⟩
  | false =>
    rw [hmem] at he
    simp only [Bool.false_eq_true, if_false] at he
    rcases List.mem_append.mp he with h | h
    · right
      refine ⟨h, ?_⟩
      have := (List.any_eq_false.mp hmem) e h
      simpa using this
    · left
      simpa using h

/-- The `declared` component of the validation loop is exactly the VB004
pass (at a configuration with the unused-variable check enabled). -/
theorem valGo_declared (cfg : DiagConfig) (hU : cfg.checkUnusedVariables = true)
    (ls : List JSStr) : ∀ (i : Nat) (st : ValSt),
    (valGo cfg i st ls).1.declared = vb004Go st.declared i ls := by
  induction ls with
  | nil => intro i st; rfl
  | cons raw rest ih =>
    intro i st
    simp only [valGo, vb004Go]
    rw [ih]
    congr 1
    unfold valLine
    by_cases hc : isCommentLine (jsTrim raw) = true
    · simp [hc]
    · simp [hc, hU]

/-- The mismatch diagnostic of a VB003 step is never an unused-variable
diagnostic. -/
theorem vb003Step_diag_not_unused (stack : BlockStack) (i rawLen : Nat)
    (line : JSStr) :
    ∀ d, (vb003Step stack i rawLen line).2 = some d → isUnusedDiag d = false := by
  intro d hd
  unfold vb003Step at hd
  repeat' split at hd
  all_goals first
    | (rw [← Option.some_inj.mp hd]; rfl)
    | simp at hd

/-- No per-line diagnostic is an unused-variable diagnostic (those are all
emitted after the loop). -/
theorem valLine_filter_unused (cfg : DiagConfig) (st : ValSt) (i : Nat)
    (raw : JSStr) : ((valLine cfg st i raw).2).filter isUnusedDiag = [] := by
  unfold valLine
  by_cases hc : isCommentLine (jsTrim raw) = true
  · simp [hc]
  · rw [List.filter_eq_nil_iff]
    intro a ha
    simp only [hc, Bool.false_eq_true, if_false, List.mem_append] at ha
    rcases ha with (ha | ha) | ha
    · rcases List.mem_ite_nil_right.mp ha with ⟨_, ha⟩
      rw [List.mem_singleton.mp ha]
      simp [isUnusedDiag]
    · rcases List.mem_ite_nil_right.mp ha with ⟨_, ha⟩
      rw [List.mem_singleton.mp ha]
      simp [isUnusedDiag]
    · by_cases hm : cfg.checkMissingEndStatements = true
      · rw [if_pos hm] at ha
        cases hs : (vb003Step st.blockStack i raw.length (jsTrim raw)).2 with
        | none =>
          rw [hs] at ha
          exact absurd ha (List.not_mem_nil a)
        | some d =>
          rw [hs] at ha
          have ha2 : a = d := List.mem_singleton.mp ha
          rw [ha2]
          have := vb003Step_diag_not_unused st.blockStack i raw.length (jsTrim raw) d hs
          simp [this]
      · rw [if_neg hm] at ha
        exact absurd ha (List.not_mem_nil a)

/-- No diagnostic of the line loop is an unused-variable diagnostic. -/
theorem valGo_filter_unused (cfg : DiagConfig) (ls : List JSStr) :
    ∀ (i : Nat) (st : ValSt),
    ((valGo cfg i st ls).2).filter isUnusedDiag = [] := by
  induction ls with
  | nil => intro i st; rfl
  | cons raw rest ih =>
    intro i st
    simp only [valGo, List.filter_append]
    rw [ih, valLine_filter_unused]
    rfl

/-- Invariant of the VB004 pass.  Processing lines `ls` from index `i`, with
`U`/`D` describing usage/declaration on the lines already processed: every
entry of the resulting map was declared (its `Dim` capture matches) at its
recorded line — the most recent declaration — and its used flag is set
exactly when its name has a whole-word occurrence on some non-comment,
non-`Dim` line strictly after that declaration line. -/
theorem vb004Go_spec (ls : List JSStr) :
    ∀ (d : DeclMap) (i : Nat) (U D : Nat → JSStr → Prop),
    (∀ e ∈ d, e.2.1 < i ∧ D e.2.1 e.1 ∧
       (e.2.2 = true ↔ ∃ j, e.2.1 < j ∧ j < i ∧ U j e.1)) →
    ∀ e ∈ vb004Go d i ls,
      e.2.1 < i + ls.length
      ∧ (if e.2.1 < i then D e.2.1 e.1 else declPred (ls.getD (e.2.1 - i) []) e.1)
      ∧ (e.2.2 = true ↔ ∃ j, e.2.1 < j ∧ j < i + ls.length ∧
           (if j < i then U j e.1 else usagePred (ls.getD (j - i) []) e.1)) := by
  induction ls with
  | nil =>
    intro d i U D hd e he
    have h := hd e he
    refine ⟨by simpa using h.1, by rw [if_pos h.1]; exact h.2.1, ?_⟩
    rw [h.2.2]
    constructor
    · rintro ⟨j, h1, h2, h3⟩
      exact ⟨j, h1, by simpa using h2, by rw [if_pos h2]; exact h3⟩
    · rintro ⟨j, h1, h2, h3⟩
      have h2' : j < i := by simpa using h2
      rw [if_pos h2'] at h3
      exact ⟨j, h1, h2', h3⟩
  | cons raw rest ih =>
    intro d i U D hd e he
    simp only [vb004Go] at he
    have hd' : ∀ e' ∈ (if isCommentLine (jsTrim raw) = true then d
          else vb004Step d i (jsTrim raw)),
        e'.2.1 < i + 1
        ∧ (if e'.2.1 < i then D e'.2.1 e'.1 else declPred raw e'.1)
        ∧ (e'.2.2 = true ↔ ∃ j, e'.2.1 < j ∧ j < i + 1 ∧
            (if j < i then U j e'.1 else usagePred raw e'.1)) := by
      by_cases hc : isCommentLine (jsTrim raw) = true
      · rw [if_pos hc]
        intro e' he'
        have h := hd e' he'
        refine ⟨by omega, ?_, ?_⟩
        · rw [if_pos h.1]
          exact h.2.1
        · rw [h.2.2]
          constructor
          · rintro ⟨j, h1, h2, h3⟩
            exact ⟨j, h1, by omega, by rw [if_pos h2]; exact h3⟩
          · rintro ⟨j, h1, h2, h3⟩
            by_cases hji : j < i
            · rw [if_pos hji] at h3
              exact ⟨j, h1, hji, h3⟩
            · rw [if_neg hji] at h3
              exact absurd hc h3.1
      · rw [if_neg hc]
        unfold vb004Step
        cases hdim : vb004Dim (jsTrim raw) with
        | some name =>
          intro e' he'
          rcases mem_setAssoc d name (i, false) e' he' with heq | ⟨hmem, hne⟩
          · subst heq
            refine ⟨Nat.lt_succ_self i, ?_, ?_⟩
            · rw [if_neg (lt_irrefl i)]
              exact ⟨hc, hdim⟩
            · constructor
              · intro hfalse
                exact absurd hfalse (by simp)
              · rintro ⟨j, h1, h2, _⟩
                have h1a : i < j := h1
                omega
          · have h := hd e' hmem
            refine ⟨by omega, ?_, ?_⟩
            · rw [if_pos h.1]
              exact h.2.1
            · rw [h.2.2]
              constructor
              · rintro ⟨j, h1, h2, h3⟩
                exact ⟨j, h1, by omega, by rw [if_pos h2]; exact h3⟩
              · rintro ⟨j, h1, h2, h3⟩
                by_cases hji : j < i
                · rw [if_pos hji] at h3
                  exact ⟨j, h1, hji, h3⟩
                · rw [if_neg hji] at h3
                  have hcontra : vb004Dim (jsTrim raw) = none := h3.2.1
                  rw [hdim] at hcontra
                  exact absurd hcontra (by simp)
        | none =>
          intro e' he'
          rcases List.mem_map.mp he' with ⟨x, hx, hfx⟩
          have h := hd x hx
          by_cases ht : wholeWordTest x.1 (jsTrim raw) = true
          · rw [if_pos ht] at hfx
            subst hfx
            refine ⟨Nat.lt_succ_of_lt h.1, ?_, ?_⟩
            · rw [if_pos h.1]
              exact h.2.1
            · constructor
              · intro _
                exact ⟨i, h.1, by omega, by rw [if_neg (lt_irrefl i)]; exact ⟨hc, hdim, ht⟩⟩
              · intro _
                trivial
          · rw [if_neg ht] at hfx
            subst hfx
            refine ⟨by omega, ?_, ?_⟩
            · rw [if_pos h.1]
              exact h.2.1
            · rw [h.2.2]
              constructor
              · rintro ⟨j, h1, h2, h3⟩
                exact ⟨j, h1, by omega, by rw [if_pos h2]; exact h3⟩
              · rintro ⟨j, h1, h2, h3⟩
                by_cases hji : j < i
                · rw [if_pos hji] at h3
                  exact ⟨j, h1, hji, h3⟩
                · rw [if_neg hji] at h3
                  exact absurd h3.2.2 (by simp [ht])
    have hres := ih _ (i + 1)
      (fun j n => if j < i then U j n else usagePred raw n)
      (fun j n => if j < i then D j n else declPred raw n) hd' e he
    obtain ⟨hb, hdp, hflag⟩ := hres
    have hpred : ∀ j : Nat,
        ((if j < i + 1 then (if j < i then U j e.1 else usagePred raw e.1)
          else usagePred (rest.getD (j - (i + 1)) []) e.1)
          ↔ (if j < i then U j e.1
             else usagePred ((raw :: rest).getD (j - i) []) e.1)) := by
      intro j
      by_cases hji : j < i
      · rw [if_pos (by omega : j < i + 1), if_pos hji, if_pos hji]
      · by_cases hji2 : j < i + 1
        · have hje : j = i := by omega
          rw [if_pos hji2, if_neg hji, if_neg hji, hje]
          simp
        · rw [if_neg hji2, if_neg hji]
          have hsub : j - i = (j - (i + 1)) + 1 := by omega
          rw [hsub, List.getD_cons_succ]
    refine ⟨by simp only [List.length_cons]; omega, ?_, ?_⟩
    · by_cases hei : e.2.1 < i
      · rw [if_pos hei]
        rw [if_pos (by omega : e.2.1 < i + 1)] at hdp
        rw [if_pos hei] at hdp
        exact hdp
      · rw [if_neg hei]
        by_cases hei2 : e.2.1 < i + 1
        · have heq : e.2.1 = i := by omega
          rw [if_pos hei2] at hdp
          rw [if_neg hei] at hdp
          rw [heq]
          simpa using hdp
        · rw [if_neg hei2] at hdp
          have hsub : e.2.1 - i = (e.2.1 - (i + 1)) + 1 := by omega
          rw [hsub, List.getD_cons_succ]
          exact hdp
    · rw [hflag]
      constructor
      · rintro ⟨j, h1, h2, h3⟩
        exact ⟨j, h1, by simp only [List.length_cons]; omega, (hpred j).mp h3⟩
      · rintro ⟨j, h1, h2, h3⟩
        refine ⟨j, h1, ?_, (hpred j).mpr h3⟩
        simp only [List.length_cons] at h2
        omega

/-- `validateTextDocument` at the default configuration, written as the loop
diagnostics followed by the missing-`End` reports and the unused-variable
reports. -/
theorem validateTextDocument_default (text : JSStr) :
    validateTextDocument defaultDiagConfig text
      = (valGo defaultDiagConfig 0 { blockStack := [], declared := [] } (splitNl text)).2
        ++ ((valGo defaultDiagConfig 0 { blockStack := [], declared := [] }
              (splitNl text)).1.blockStack.map (fun b =>
            { severity := sevError, startLine := b.2, startChar := 0
              endLine := b.2, endChar := ((splitNl text).getD b.2 []).length
              msg := DiagMsg.missingEnd b.1, code := "VB003".toList }))
        ++ (((valGo defaultDiagConfig 0 { blockStack := [], declared := [] }
              (splitNl text)).1.declared.filter (fun e => !e.2.2)).map (fun e =>
            { severity := sevInformation, startLine := e.2.1, startChar := 0
              endLine := e.2.1, endChar := ((splitNl text).getD e.2.1 []).length
              msg := DiagMsg.unusedVariable e.1, code := "VB004".toList })) := rfl

/-- Claim C9 (amended) — unused-variable semantics at the default
configuration: the published VB004 diagnostics are exactly the
never-marked-used entries of the declaration map, anchored at their
declaration lines; and an entry of that map (its line being its last `Dim`
declaration) is marked used exactly when its identifier has a
case-insensitive whole-word occurrence on some non-comment, non-`Dim` line
strictly *after* the declaration line — occurrences before the declaration,
on comment lines, or on other `Dim` lines do not count. -/
theorem unused_variable_semantics (text : JSStr) :
    ((validateTextDocument defaultDiagConfig text).filter isUnusedDiag
      = ((vb004Map (splitNl text)).filter (fun e => !e.2.2)).map (fun e =>
          { severity := sevInformation, startLine := e.2.1, startChar := 0
            endLine := e.2.1, endChar := ((splitNl text).getD e.2.1 []).length
            msg := DiagMsg.unusedVariable e.1, code := "VB004".toList }))
  ∧ ∀ e ∈ vb004Map (splitNl text),
      declPred ((splitNl text).getD e.2.1 []) e.1
      ∧ (e.2.2 = true ↔ ∃ j, e.2.1 < j ∧ j < (splitNl text).length ∧
          usagePred ((splitNl text).getD j []) e.1) := by
  constructor
  · rw [validateTextDocument_default]
    simp only [List.filter_append]
    rw [valGo_filter_unused]
    have hmid : (((valGo defaultDiagConfig 0 { blockStack := [], declared := [] }
          (splitNl text)).1.blockStack.map (fun b =>
        { severity := sevError, startLine := b.2, startChar := 0
          endLine := b.2, endChar := ((splitNl text).getD b.2 []).length
          msg := DiagMsg.missingEnd b.1, code := "VB003".toList })).filter
            isUnusedDiag) = [] := by
      rw [List.filter_eq_nil_iff]
      intro a ha
      rcases List.mem_map.mp ha with ⟨b, _, hfb⟩
      rw [← hfb]
      simp [isUnusedDiag]
    have hlast : ((((valGo defaultDiagConfig 0 { blockStack := [], declared := [] }
          (splitNl text)).1.declared.filter (fun e => !e.2.2)).map (fun e =>
        { severity := sevInformation, startLine := e.2.1, startChar := 0
          endLine := e.2.1, endChar := ((splitNl text).getD e.2.1 []).length
          msg := DiagMsg.unusedVariable e.1, code := "VB004".toList })).filter
            isUnusedDiag)
        = (((valGo defaultDiagConfig 0 { blockStack := [], declared := [] }
          (splitNl text)).1.declared.filter (fun e => !e.2.2)).map (fun e =>
        { severity := sevInformation, startLine := e.2.1, startChar := 0
          endLine := e.2.1, endChar := ((splitNl text).getD e.2.1 []).length
          msg := DiagMsg.unusedVariable e.1, code := "VB004".toList })) := by
      rw [List.filter_eq_self]
      intro a ha
      rcases List.mem_map.mp ha with ⟨b, _, hfb⟩
      rw [← hfb]
      rfl
    rw [hmid, hlast, valGo_declared defaultDiagConfig rfl]
    rfl
  · intro e he
    have h := vb004Go_spec (splitNl text) [] 0 (fun _ _ => False) (fun _ _ => False)
      (fun e' he' => absurd he' (List.not_mem_nil e')) e he
    refine ⟨?_, ?_⟩
    · have hdp := h.2.1
      rw [if_neg (Nat.not_lt_zero _)] at hdp
      simpa using hdp
    · rw [h.2.2]
      constructor
      · rintro ⟨j, h1, h2, h3⟩
        rw [if_neg (Nat.not_lt_zero _)] at h3
        exact ⟨j, h1, by simpa using h2, by simpa using h3⟩
      · rintro ⟨j, h1, h2, h3⟩
        exact ⟨j, h1, by simpa using h2,
          by rw [if_neg (Nat.not_lt_zero _)]; simpa using h3⟩

/-- Counterexample to claim C9 as stated: in `"x = 1\nDim x"` the identifier
`x` appears in the file's text (line 0) yet the declaration on line 1 is
still reported unused — an occurrence on a line before the declaration does
not mark the variable used. -/
theorem unused_variable_counterexample :
    (validateTextDocument defaultDiagConfig ("x = 1\nDim x".toList)).filter
        isUnusedDiag
      = [{ severity := sevInformation, startLine := 1, startChar := 0, endLine := 1
           endChar := 5, msg := DiagMsg.unusedVariable ['x'], code := "VB004".toList }]
  ∧ wholeWordTest ['x'] ("x = 1".toList) = true := by decide

/-- Witness for the amended unused-variable claim on `"Dim x\ny = x"`: the
map entry for `x` is declared on line 0 and its used flag comes from a
usage on a later line. -/
theorem unused_variable_semantics_witness :
    declPred ((splitNl ("Dim x\ny = x".toList)).getD 0 []) ['x']
  ∧ (∃ j, 0 < j ∧ j < (splitNl ("Dim x\ny = x".toList)).length ∧
      usagePred ((splitNl ("Dim x\ny = x".toList)).getD j []) ['x']) := by
  have h := (unused_variable_semantics ("Dim x\ny = x".toList)).2
    (['x'], 0, true) (by decide)
  exact ⟨h.1, h.2.mp rfl⟩

/-- Case-insensitive equality is reflexive. -/
theorem ciEqCh_refl (c : Char) : ciEqCh c c = true := by
  simp [ciEqCh]

/-- Matching a keyword against itself (followed by anything) consumes exactly
the keyword. -/
theorem eatCI_self (k s : JSStr) : eatCI k (k ++ s) = some (k, s) := by
  induction k with
  | nil => rfl
  | cons c k ih => simp [eatCI, ciEqCh_refl, ih]

/-- Greedy span over a block that wholly satisfies the predicate. -/
theorem spanP_append_all (p : Char → Bool) (w r : JSStr)
    (h : ∀ c ∈ w, p c = true) :
    spanP p (w ++ r) = (w ++ (spanP p r).1, (spanP p r).2) := by
  induction w with
  | nil => simp
  | cons c w ih =>
    have hc : p c = true := h c (by simp)
    simp only [List.cons_append, spanP, hc, if_true, List.append_eq]
    rw [ih (fun x hx => h x (by simp [hx]))]

/-- A span stops immediately when the head fails the predicate. -/
theorem spanP_nil_of_head (p : Char → Bool) (s : JSStr)
    (h : ∀ c, s.head? = some c → p c = false) : spanP p s = ([], s) := by
  cases s with
  | nil => rfl
  | cons c t =>
    have hc : p c = false := h c rfl
    simp [spanP, hc]

/-- Greedy span over `w ++ r` when all of `w` satisfies the predicate and the
head of `r` does not. -/
theorem spanP_exact (p : Char → Bool) (w r : JSStr) (hw : ∀ c ∈ w, p c = true)
    (hr : ∀ c, r.head? = some c → p c = false) : spanP p (w ++ r) = (w, r) := by
  rw [spanP_append_all p w r hw, spanP_nil_of_head p r hr]
  simp

/-- Word characters are not whitespace. -/
theorem isWordCh_not_space (c : Char) (h : isWordCh c = true) :
    isSpaceCh c = false := by
  simp only [isWordCh, Bool.or_eq_true, Bool.and_eq_true, decide_eq_true_eq,
    beq_iff_eq] at h
  simp only [isSpaceCh, Bool.or_eq_false_iff, Bool.and_eq_false_iff,
    beq_eq_false_iff_ne, ne_eq, decide_eq_false_iff_not]
  omega

/-- The head of `identifier ++ r` is a word character, hence not whitespace. -/
theorem head_ident_not_space (w r : JSStr) (hw : IsIdent w) :
    ∀ c, (w ++ r).head? = some c → isSpaceCh c = false := by
  intro c hc
  obtain ⟨hne, hall⟩ := hw
  cases w with
  | nil => exact absurd rfl hne
  | cons a t =>
    simp only [List.cons_append, List.head?_cons, Option.some_inj] at hc
    subst hc
    exact isWordCh_not_space a (hall a (by simp))

/-- `\s+(\w+)` against a space, an identifier and a non-word remainder. -/
theorem wordAfterSpaces1_exact (w r : JSStr) (hw : IsIdent w)
    (hr : ∀ c, r.head? = some c → isWordCh c = false) :
    wordAfterSpaces1 (' ' :: (w ++ r)) = some (w, r) := by
  have hsp : spanP isSpaceCh (' ' :: (w ++ r)) = ([' '], w ++ r) := by
    have h2 : spanP isSpaceCh (w ++ r) = ([], w ++ r) :=
      spanP_nil_of_head _ _ (head_ident_not_space w r hw)
    simp [spanP, h2, show isSpaceCh ' ' = true from by decide]
  have hwrd : spanP isWordCh (w ++ r) = (w, r) := spanP_exact _ _ _ hw.2 hr
  simp [wordAfterSpaces1, hsp, hwrd, List.isEmpty_iff, hw.1]

/-- Both parts of a span consist of characters of the input. -/
theorem spanP_mem (p : Char → Bool) (s : JSStr) :
    (∀ c ∈ (spanP p s).1, c ∈ s) ∧ (∀ c ∈ (spanP p s).2, c ∈ s) := by
  induction s with
  | nil => simp [spanP]
  | cons a t ih =>
    by_cases ha : p a = true
    · simp only [spanP, ha, if_true]
      constructor
      · intro c hc
        rcases List.mem_cons.mp hc with rfl | hc
        · simp
        · simp [ih.1 c hc]
      · intro c hc
        simp [ih.2 c hc]
    · simp only [spanP, ha, Bool.not_eq_true, if_neg]
      constructor
      · intro c hc
        simp at hc
      · intro c hc
        exact hc

/-- The rest after a successful keyword match consists of input characters. -/
theorem eatCI_mem (k : JSStr) : ∀ (s m r : JSStr), eatCI k s = some (m, r) →
    ∀ c ∈ r, c ∈ s := by
  induction k with
  | nil =>
    intro s m r h c hc
    simp only [eatCI, Option.some_inj, Prod.mk.injEq] at h
    rw [← h.2] at hc
    exact hc
  | cons a k ih =>
    intro s m r h c hc
    cases s with
    | nil => simp [eatCI] at h
    | cons b t =>
      simp only [eatCI] at h
      by_cases hab : ciEqCh a b = true
      · rw [if_pos hab] at h
        cases he : eatCI k t with
        | none => rw [he] at h; simp at h
        | some p =>
          rw [he] at h
          have h2 : (b :: p.1, p.2) = (m, r) := by simpa using h
          have h3 : p.2 = r := ((Prod.mk.injEq _ _ _ _).mp h2).2
          rw [← h3] at hc
          have := ih t p.1 p.2 he c hc
          simp [this]
      · rw [if_neg hab] at h
        simp at h

/-- `\s*(?:As\s+(\w+))?` finds no type when the text after the leading spaces
contains no whitespace at all. -/
theorem asGroupStar_none (s : JSStr)
    (h : ∀ c ∈ (spanP isSpaceCh s).2, isSpaceCh c = false) :
    asGroupStar s = none := by
  cases he : eatCI kwAs (spanP isSpaceCh s).2 with
  | none => simp [asGroupStar, he]
  | some p =>
    obtain ⟨m, r⟩ := p
    have hmem : ∀ c ∈ r, c ∈ (spanP isSpaceCh s).2 := eatCI_mem kwAs _ m r he
    have hr : spanP isSpaceCh r = ([], r) := by
      refine spanP_nil_of_head _ _ (fun c hc => ?_)
      refine h c (hmem c ?_)
      cases p2 : r with
      | nil => rw [p2] at hc; simp at hc
      | cons a t =>
        rw [p2] at hc
        simp only [List.head?_cons, Option.some_inj] at hc
        rw [← hc]
        simp
    simp [asGroupStar, he, wordAfterSpaces1, hr]

/-- A successful `splitLastNl` needs a newline in its input. -/
theorem splitLastNl_some_mem (l : JSStr) (x : JSStr × JSStr)
    (h : splitLastNl l = some x) : '\n' ∈ l := by
  induction l generalizing x with
  | nil => simp [splitLastNl] at h
  | cons c t ih =>
    simp only [splitLastNl] at h
    cases hs : splitLastNl t with
    | some p =>
      rw [hs] at h
      simp [List.mem_cons, ih p hs]
    | none =>
      rw [hs] at h
      by_cases hc : (c == '\n') = true
      · simp [beq_iff_eq.mp hc]
      · rw [if_neg hc] at h
        simp at h

/-- The line-continuation pattern cannot match inside newline-free text. -/
theorem contMatchHere_none (s : JSStr) (h : ¬ '\n' ∈ s) :
    contMatchHere s = none := by
  unfold contMatchHere
  by_cases hsp : ((spanP isSpaceCh s).1).isEmpty = true
  · simp [hsp]
  · rw [if_neg hsp]
    split
    · rename_i r heq
      cases hrun : splitLastNl (spanP isSpaceCh r).1 with
      | none => simp [hrun]
      | some x =>
        exfalso
        have h1 : '\n' ∈ (spanP isSpaceCh r).1 := splitLastNl_some_mem _ x hrun
        have h2 : '\n' ∈ r := (spanP_mem isSpaceCh r).1 _ h1
        have h4 : '\n' ∈ (spanP isSpaceCh s).2 := by
          rw [heq]
          simp [h2]
        exact h ((spanP_mem isSpaceCh s).2 _ h4)
    · rfl

/-- Newline-free text is unchanged by the continuation replacement. -/
theorem replaceContFuel_id (fuel : Nat) (s : JSStr) (h : ¬ '\n' ∈ s) :
    replaceContFuel fuel s = s := by
  induction fuel generalizing s with
  | zero => rfl
  | succ fuel ih =>
    cases s with
    | nil => rfl
    | cons c t =>
      simp only [replaceContFuel, contMatchHere_none _ h]
      rw [ih t (fun hc => h (by simp [hc]))]

/-- Newline-free text is unchanged by the continuation replacement. -/
theorem replaceCont_id (s : JSStr) (h : ¬ '\n' ∈ s) : replaceCont s = s :=
  replaceContFuel_id s.length s h

/-- Splitting newline-free text on newlines yields the single line. -/
theorem splitNl_single (s : JSStr) (h : ¬ '\n' ∈ s) : splitNl s = [s] := by
  induction s with
  | nil => rfl
  | cons c t ih =>
    have hc : ¬ c = '\n' := fun hc => h (by simp [hc])
    simp only [splitNl]
    rw [ih (fun hm => h (by simp [hm]))]
    simp [hc]

/-- Trimming is the identity when neither end is whitespace. -/
theorem jsTrim_id (s : JSStr)
    (h1 : ∀ c, s.head? = some c → isSpaceCh c = false)
    (h2 : ∀ c, s.getLast? = some c → isSpaceCh c = false) : jsTrim s = s := by
  unfold jsTrim
  have hd : s.dropWhile isSpaceCh = s := by
    cases s with
    | nil => rfl
    | cons a t => simp [List.dropWhile_cons, h1 a rfl]
  rw [hd]
  have hrev : s.reverse.dropWhile isSpaceCh = s.reverse := by
    cases hr : s.reverse with
    | nil => rfl
    | cons a t =>
      have ha : s.getLast? = some a := by
        rw [← List.head?_reverse, hr]
        rfl
      simp [List.dropWhile_cons, h2 a ha]
  rw [hrev, List.reverse_reverse]

/-- A single-line document parses as one pass of the line loop. -/
theorem parseDocumentSymbols_single (line uri : JSStr) (h : ¬ '\n' ∈ line) :
    parseDocumentSymbols line uri = parseLinesGo uri 0 (none, none) [line] := by
  unfold parseDocumentSymbols
  rw [replaceCont_id line h, splitNl_single line h]

/-- An identifier contains no newline. -/
theorem ident_no_nl (w : JSStr) (hw : IsIdent w) : ¬ '\n' ∈ w := by
  intro hm
  have := hw.2 '\n' hm
  exact absurd this (by decide)

/-- An identifier's head is not whitespace. -/
theorem ident_head_not_space (w : JSStr) (hw : IsIdent w) :
    ∀ c, w.head? = some c → isSpaceCh c = false := by
  intro c hc
  cases w with
  | nil => exact absurd rfl hw.1
  | cons a t =>
    simp only [List.head?_cons, Option.some_inj] at hc
    rw [← hc]
    exact isWordCh_not_space a (hw.2 a (by simp))

/-- `\s+(\w+)` with nothing after the identifier. -/
theorem wordAfterSpaces1_end (w : JSStr) (hw : IsIdent w) :
    wordAfterSpaces1 (' ' :: w) = some (w, []) := by
  have := wordAfterSpaces1_exact w [] hw (fun c hc => by simp at hc)
  simpa using this

/-- `(\w+)` greedily takes the whole identifier at the end of the input. -/
theorem spanP_word_end (w : JSStr) (hw : IsIdent w) :
    spanP isWordCh w = (w, []) := by
  have := spanP_exact isWordCh w [] hw.2 (fun c hc => by simp at hc)
  simpa using this

/-- The `Module` regex on `Module w`. -/
theorem matchModule_pos (w : JSStr) (hw : IsIdent w) :
    matchModule ("Module ".toList ++ w) = some (none, w) := by
  show matchModule ('M' :: 'o' :: 'd' :: 'u' :: 'l' :: 'e' :: ' ' :: w) = some (none, w)
  have h1 : eatCI kwModuleW ('M' :: 'o' :: 'd' :: 'u' :: 'l' :: 'e' :: ' ' :: w) = some (kwModuleW, ' ' :: w) :=
    eatCI_self kwModuleW (' ' :: w)
  have h0 : matchMod ('M' :: 'o' :: 'd' :: 'u' :: 'l' :: 'e' :: ' ' :: w) = (none, 'M' :: 'o' :: 'd' :: 'u' :: 'l' :: 'e' :: ' ' :: w) := rfl
  simp [matchModule, h0, h1, wordAfterSpaces1_end w hw]

/-- The `Class` regex on `Class w`. -/
theorem matchClass_pos (w : JSStr) (hw : IsIdent w) :
    matchClass ("Class ".toList ++ w) = some (none, w, none) := by
  show matchClass ('C' :: 'l' :: 'a' :: 's' :: 's' :: ' ' :: w) = some (none, w, none)
  have h1 : eatCI kwClassW ('C' :: 'l' :: 'a' :: 's' :: 's' :: ' ' :: w) = some (kwClassW, ' ' :: w) :=
    eatCI_self kwClassW (' ' :: w)
  have h0 : matchMod ('C' :: 'l' :: 'a' :: 's' :: 's' :: ' ' :: w) = (none, 'C' :: 'l' :: 'a' :: 's' :: 's' :: ' ' :: w) := rfl
  simp [matchClass, h0, h1, wordAfterSpaces1_end w hw, spanP]

/-- The `Enum` regex on `Enum w`. -/
theorem matchEnum_pos (w : JSStr) (hw : IsIdent w) :
    matchEnum ("Enum ".toList ++ w) = some (none, w) := by
  show matchEnum ('E' :: 'n' :: 'u' :: 'm' :: ' ' :: w) = some (none, w)
  have h1 : eatCI kwEnumW ('E' :: 'n' :: 'u' :: 'm' :: ' ' :: w) = some (kwEnumW, ' ' :: w) :=
    eatCI_self kwEnumW (' ' :: w)
  have h0 : matchMod ('E' :: 'n' :: 'u' :: 'm' :: ' ' :: w) = (none, 'E' :: 'n' :: 'u' :: 'm' :: ' ' :: w) := rfl
  simp [matchEnum, h0, h1, wordAfterSpaces1_end w hw]

/-- The `Type` regex on `Type w`. -/
theorem matchType_pos (w : JSStr) (hw : IsIdent w) :
    matchType ("Type ".toList ++ w) = some (none, w) := by
  show matchType ('T' :: 'y' :: 'p' :: 'e' :: ' ' :: w) = some (none, w)
  have h1 : eatCI kwTypeW ('T' :: 'y' :: 'p' :: 'e' :: ' ' :: w) = some (kwTypeW, ' ' :: w) :=
    eatCI_self kwTypeW (' ' :: w)
  have h0 : matchMod ('T' :: 'y' :: 'p' :: 'e' :: ' ' :: w) = (none, 'T' :: 'y' :: 'p' :: 'e' :: ' ' :: w) := rfl
  simp [matchType, h0, h1, wordAfterSpaces1_end w hw]

/-- The property regex on `Property Get w`. -/
theorem matchProperty_pos (w : JSStr) (hw : IsIdent w) :
    matchProperty ("Property Get ".toList ++ w)
      = some (none, some ("Get".toList), w, none) := by
  show matchProperty ('P' :: 'r' :: 'o' :: 'p' :: 'e' :: 'r' :: 't' :: 'y' :: ' ' :: 'G' :: 'e' :: 't' :: ' ' :: w) = some (none, some (['G', 'e', 't']), w, none)
  have h1 : eatCI kwPropertyW ('P' :: 'r' :: 'o' :: 'p' :: 'e' :: 'r' :: 't' :: 'y' :: ' ' :: 'G' :: 'e' :: 't' :: ' ' :: w)
      = some (kwPropertyW, ' ' :: ('G' :: 'e' :: 't' :: ' ' :: w)) :=
    eatCI_self kwPropertyW (' ' :: ('G' :: 'e' :: 't' :: ' ' :: w))
  have h0 : matchMod ('P' :: 'r' :: 'o' :: 'p' :: 'e' :: 'r' :: 't' :: 'y' :: ' ' :: 'G' :: 'e' :: 't' :: ' ' :: w) = (none, 'P' :: 'r' :: 'o' :: 'p' :: 'e' :: 'r' :: 't' :: 'y' :: ' ' :: 'G' :: 'e' :: 't' :: ' ' :: w) := rfl
  have hsp : spanP isSpaceCh (' ' :: ('G' :: 'e' :: 't' :: ' ' :: w)) = ([' '], 'G' :: 'e' :: 't' :: ' ' :: w) := rfl
  have hacc : accessorAlt ('G' :: 'e' :: 't' :: ' ' :: w) = some (['G', 'e', 't'], ' ' :: w) := rfl
  have hsp2 : spanP isSpaceCh (' ' :: w) = ([' '], w) := by
    have h2 : spanP isSpaceCh w = ([], w) :=
      spanP_nil_of_head _ _ (ident_head_not_space w hw)
    simp [spanP, h2, show isSpaceCh ' ' = true from by decide]
  have hsk : skipParamGroup ([] : JSStr) = [] := rfl
  have hag : asGroupStar ([] : JSStr) = none := rfl
  simp [matchProperty, h0, h1, hsp, hacc, hsp2, spanP_word_end w hw,
    List.isEmpty_iff, hw.1, hsk, hag]

/-- The function regex on `Function w()`. -/
theorem matchFunc_pos (w : JSStr) (hw : IsIdent w) :
    matchFunc ("Function ".toList ++ (w ++ "()".toList))
      = some (none, w, [], none) := by
  show matchFunc ('F' :: 'u' :: 'n' :: 'c' :: 't' :: 'i' :: 'o' :: 'n' :: ' ' :: (w ++ '(' :: ')' :: [])) = some (none, w, [], none)
  have h1 : eatCI kwFunctionW ('F' :: 'u' :: 'n' :: 'c' :: 't' :: 'i' :: 'o' :: 'n' :: ' ' :: (w ++ '(' :: ')' :: []))
      = some (kwFunctionW, ' ' :: (w ++ '(' :: ')' :: [])) :=
    eatCI_self kwFunctionW (' ' :: (w ++ '(' :: ')' :: []))
  have h0 : matchMod ('F' :: 'u' :: 'n' :: 'c' :: 't' :: 'i' :: 'o' :: 'n' :: ' ' :: (w ++ '(' :: ')' :: [])) = (none, 'F' :: 'u' :: 'n' :: 'c' :: 't' :: 'i' :: 'o' :: 'n' :: ' ' :: (w ++ '(' :: ')' :: [])) := rfl
  have h2 : wordAfterSpaces1 (' ' :: (w ++ '(' :: ')' :: []))
      = some (w, '(' :: ')' :: []) :=
    wordAfterSpaces1_exact w ('(' :: ')' :: []) hw
      (fun c hc => by simp at hc; rw [← hc]; decide)
  simp only [matchFunc, h0, h1, h2]
  rfl

/-- The subroutine regex on `Sub w()`. -/
theorem matchSub_pos (w : JSStr) (hw : IsIdent w) :
    matchSub ("Sub ".toList ++ (w ++ "()".toList)) = some (none, w, []) := by
  show matchSub ('S' :: 'u' :: 'b' :: ' ' :: (w ++ '(' :: ')' :: [])) = some (none, w, [])
  have h1 : eatCI kwSubW ('S' :: 'u' :: 'b' :: ' ' :: (w ++ '(' :: ')' :: []))
      = some (kwSubW, ' ' :: (w ++ '(' :: ')' :: [])) :=
    eatCI_self kwSubW (' ' :: (w ++ '(' :: ')' :: []))
  have h0 : matchMod ('S' :: 'u' :: 'b' :: ' ' :: (w ++ '(' :: ')' :: [])) = (none, 'S' :: 'u' :: 'b' :: ' ' :: (w ++ '(' :: ')' :: [])) := rfl
  have h2 : wordAfterSpaces1 (' ' :: (w ++ '(' :: ')' :: []))
      = some (w, '(' :: ')' :: []) :=
    wordAfterSpaces1_exact w ('(' :: ')' :: []) hw
      (fun c hc => by simp at hc; rw [← hc]; decide)
  simp only [matchSub, h0, h1, h2]
  rfl

/-- The variable regex on `Dim w`. -/
theorem matchVar_pos (w : JSStr) (hw : IsIdent w) :
    matchVar ("Dim ".toList ++ w) = some ("Dim".toList, w, none) := by
  show matchVar ('D' :: 'i' :: 'm' :: ' ' :: w) = some (['D', 'i', 'm'], w, none)
  have h1 : eatCI kwDim ('D' :: 'i' :: 'm' :: ' ' :: w) = some (['D', 'i', 'm'], ' ' :: w) :=
    eatCI_self kwDim (' ' :: w)
  have hsk : skipParamGroup ([] : JSStr) = [] := rfl
  have hag : asGroupStar ([] : JSStr) = none := rfl
  simp [matchVar, dimAlt, h1, wordAfterSpaces1_end w hw, hsk, hag]

/-- The constant regex on `Const w = 1`. -/
theorem matchConst_pos (w : JSStr) (hw : IsIdent w) :
    matchConst ("Const ".toList ++ (w ++ " = 1".toList))
      = some (none, w, none, "1".toList) := by
  show matchConst ('C' :: 'o' :: 'n' :: 's' :: 't' :: ' ' :: (w ++ ' ' :: '=' :: ' ' :: '1' :: [])) = some (none, w, none, ['1'])
  have h1 : eatCI kwConstW ('C' :: 'o' :: 'n' :: 's' :: 't' :: ' ' :: (w ++ ' ' :: '=' :: ' ' :: '1' :: []))
      = some (kwConstW, ' ' :: (w ++ ' ' :: '=' :: ' ' :: '1' :: [])) :=
    eatCI_self kwConstW (' ' :: (w ++ ' ' :: '=' :: ' ' :: '1' :: []))
  have h0 : matchMod2 kwPrivate kwPublic ('C' :: 'o' :: 'n' :: 's' :: 't' :: ' ' :: (w ++ ' ' :: '=' :: ' ' :: '1' :: [])) = (none, 'C' :: 'o' :: 'n' :: 's' :: 't' :: ' ' :: (w ++ ' ' :: '=' :: ' ' :: '1' :: [])) := rfl
  have h2 : wordAfterSpaces1 (' ' :: (w ++ ' ' :: '=' :: ' ' :: '1' :: []))
      = some (w, ' ' :: '=' :: ' ' :: '1' :: []) :=
    wordAfterSpaces1_exact w (' ' :: '=' :: ' ' :: '1' :: []) hw
      (fun c hc => by simp at hc; rw [← hc]; decide)
  have har : asGroupStarRest (' ' :: '=' :: ' ' :: '1' :: []) = none := rfl
  simp only [matchConst, h0, h1, h2]
  rfl

/-- The subroutine regex on `Private Sub w()`. -/
theorem matchSub_priv (w : JSStr) (hw : IsIdent w) :
    matchSub ("Private Sub ".toList ++ (w ++ "()".toList))
      = some (some ("Private ".toList), w, []) := by
  show matchSub ('P' :: 'r' :: 'i' :: 'v' :: 'a' :: 't' :: 'e' :: ' ' :: 'S' :: 'u' :: 'b' :: ' ' :: (w ++ '(' :: ')' :: [])) = some (some (['P', 'r', 'i', 'v', 'a', 't', 'e', ' ']), w, [])
  have h0 : matchMod ('P' :: 'r' :: 'i' :: 'v' :: 'a' :: 't' :: 'e' :: ' ' :: 'S' :: 'u' :: 'b' :: ' ' :: (w ++ '(' :: ')' :: [])) = (some (['P', 'r', 'i', 'v', 'a', 't', 'e', ' ']), 'S' :: 'u' :: 'b' :: ' ' :: (w ++ '(' :: ')' :: [])) := rfl
  have h1 : eatCI kwSubW ('S' :: 'u' :: 'b' :: ' ' :: (w ++ '(' :: ')' :: []))
      = some (kwSubW, ' ' :: (w ++ '(' :: ')' :: [])) :=
    eatCI_self kwSubW (' ' :: (w ++ '(' :: ')' :: []))
  have h2 : wordAfterSpaces1 (' ' :: (w ++ '(' :: ')' :: []))
      = some (w, '(' :: ')' :: []) :=
    wordAfterSpaces1_exact w ('(' :: ')' :: []) hw
      (fun c hc => by simp at hc; rw [← hc]; decide)
  simp only [matchSub, h0, h1, h2]
  rfl

/-- The variable regex also fires on `Private Sub w()`, capturing the keyword
`Sub` as a variable name. -/
theorem matchVar_priv (w : JSStr) (hw : IsIdent w) :
    matchVar ("Private Sub ".toList ++ (w ++ "()".toList))
      = some ("Private".toList, "Sub".toList, none) := by
  show matchVar ('P' :: 'r' :: 'i' :: 'v' :: 'a' :: 't' :: 'e' :: ' ' :: 'S' :: 'u'
      :: 'b' :: ' ' :: (w ++ '(' :: ')' :: []))
      = some (['P', 'r', 'i', 'v', 'a', 't', 'e'], ['S', 'u', 'b'], none)
  have hd : dimAlt ('P' :: 'r' :: 'i' :: 'v' :: 'a' :: 't' :: 'e' :: ' ' :: 'S'
      :: 'u' :: 'b' :: ' ' :: (w ++ '(' :: ')' :: []))
      = some (['P', 'r', 'i', 'v', 'a', 't', 'e'],
          ' ' :: 'S' :: 'u' :: 'b' :: ' ' :: (w ++ '(' :: ')' :: [])) := rfl
  have hwd : wordAfterSpaces1 (' ' :: 'S' :: 'u' :: 'b' :: ' ' :: (w ++ '(' :: ')' :: []))
      = some (['S', 'u', 'b'], ' ' :: (w ++ '(' :: ')' :: [])) := rfl
  have hspw : spanP isSpaceCh (' ' :: (w ++ '(' :: ')' :: []))
      = ([' '], w ++ '(' :: ')' :: []) := by
    have h2 : spanP isSpaceCh (w ++ '(' :: ')' :: []) = ([], w ++ '(' :: ')' :: []) :=
      spanP_nil_of_head _ _ (head_ident_not_space w ('(' :: ')' :: []) hw)
    simp [spanP, h2, show isSpaceCh ' ' = true from by decide]
  have hpg : paramGroup (' ' :: (w ++ '(' :: ')' :: [])) = none := by
    unfold paramGroup
    rw [hspw]
    obtain ⟨hne, hall⟩ := hw
    cases w with
    | nil => exact absurd rfl hne
    | cons a t =>
      simp only [List.cons_append]
      split
      · rename_i r2 heq
        have ha : a = '(' := (List.cons.injEq _ _ _ _ |>.mp heq).1
        have haw := hall a (by simp)
        rw [ha] at haw
        exact absurd haw (by decide)
      · rfl
  have hsk : skipParamGroup (' ' :: (w ++ '(' :: ')' :: []))
      = ' ' :: (w ++ '(' :: ')' :: []) := by
    unfold skipParamGroup
    rw [hpg]
  have hag : asGroupStar (' ' :: (w ++ '(' :: ')' :: [])) = none := by
    refine asGroupStar_none _ ?_
    rw [hspw]
    intro c hc
    rcases List.mem_append.mp hc with hc | hc
    · exact isWordCh_not_space c (hw.2 c hc)
    · rcases List.mem_cons.mp hc with rfl | hc
      · decide
      · rcases List.mem_cons.mp hc with rfl | hc
        · decide
        · simp at hc
  simp [matchVar, hd, hwd, hsk, hag]

/-- A newline-free literal prefix followed by an identifier contains no
newline. -/
theorem noNl_pre (A w : JSStr) (hw : IsIdent w) (hA : ¬ '\n' ∈ A) :
    ¬ '\n' ∈ A ++ w := by
  intro hm
  rcases List.mem_append.mp hm with h | h
  · exact hA h
  · exact ident_no_nl w hw h

/-- A line built as literal prefix, identifier, literal suffix contains no
newline when neither literal does. -/
theorem noNl_wrap (A w B : JSStr) (hw : IsIdent w)
    (hA : ¬ '\n' ∈ A) (hB : ¬ '\n' ∈ B) : ¬ '\n' ∈ A ++ (w ++ B) := by
  intro hm
  rcases List.mem_append.mp hm with h | h
  · exact hA h
  · rcases List.mem_append.mp h with h | h
    · exact ident_no_nl w hw h
    · exact hB h

/-- Trimming a literal-prefix-plus-identifier line is the identity: the head
of the literal is not whitespace and the last identifier character is a word
character. -/
theorem jsTrim_pre (A w : JSStr) (hw : IsIdent w)
    (hA : ∀ c, A.head? = some c → isSpaceCh c = false) (hAne : A ≠ []) :
    jsTrim (A ++ w) = A ++ w := by
  refine jsTrim_id _ ?_ ?_
  · intro c hc
    cases A with
    | nil => exact absurd rfl hAne
    | cons a t =>
      have h1 : a = c := by simpa using hc
      exact h1 ▸ hA a rfl
  · intro c hc
    rw [List.getLast?_append] at hc
    cases hlw : w.getLast? with
    | none => exact absurd (List.getLast?_eq_none_iff.mp hlw) hw.1
    | some d =>
      rw [hlw] at hc
      have hdc : d = c := Option.some_inj.mp hc
      exact hdc ▸ isWordCh_not_space d (hw.2 d (List.mem_of_getLast?_eq_some hlw))

/-- Trimming a literal-wrapped identifier line is the identity when the
prefix does not start and the suffix does not end with whitespace. -/
theorem jsTrim_wrap (A w B : JSStr)
    (hA : ∀ c, A.head? = some c → isSpaceCh c = false) (hAne : A ≠ [])
    (hB : ∀ c, B.getLast? = some c → isSpaceCh c = false) (hBne : B ≠ []) :
    jsTrim (A ++ (w ++ B)) = A ++ (w ++ B) := by
  refine jsTrim_id _ ?_ ?_
  · intro c hc
    cases A with
    | nil => exact absurd rfl hAne
    | cons a t =>
      have h1 : a = c := by simpa using hc
      exact h1 ▸ hA a rfl
  · intro c hc
    rw [List.getLast?_append, List.getLast?_append] at hc
    cases hlB : B.getLast? with
    | none => exact absurd (List.getLast?_eq_none_iff.mp hlB) hBne
    | some d =>
      rw [hlB] at hc
      have hdc : d = c := Option.some_inj.mp hc
      exact hdc ▸ hB d hlB

/-- One pass of the line loop on a line that is neither a comment, nor
blank, nor a module or class header: exactly the non-`continue` branch
symbols are emitted. -/
theorem parseLinesGo_one (uri raw : JSStr) (i : Nat) (st : ParseSt)
    (hb : (startsLit [apoCh] (jsTrim raw) || startsLit ("REM ".toList) (jsTrim raw)
        || (jsTrim raw).isEmpty) = false)
    (hm : matchModule (jsTrim raw) = none)
    (hc : matchClass (jsTrim raw) = none) :
    parseLinesGo uri i st [raw] = lineSymbols uri i st (jsTrim raw) := by
  simp only [Bool.or_eq_false_iff] at hb
  obtain ⟨⟨h1, h2⟩, h3⟩ := hb
  have h4 : startsLit ['R', 'E', 'M', ' '] (jsTrim raw) = false := h2
  have hne : jsTrim raw ≠ [] := by
    intro he
    rw [he] at h3
    exact absurd h3 (by decide)
  simp [parseLinesGo, h1, h2, h4, h3, hne, hm, hc]

/-- One pass of the line loop on a module header line: a single module
symbol is emitted. -/
theorem parseLinesGo_one_module (uri raw : JSStr) (i : Nat) (st : ParseSt)
    (acc : Option JSStr) (w : JSStr)
    (hb : (startsLit [apoCh] (jsTrim raw) || startsLit ("REM ".toList) (jsTrim raw)
        || (jsTrim raw).isEmpty) = false)
    (hm : matchModule (jsTrim raw) = some (acc, w)) :
    nameKinds (parseLinesGo uri i st [raw]) = [(w, kindModule)] := by
  simp only [Bool.or_eq_false_iff] at hb
  obtain ⟨⟨h1, h2⟩, h3⟩ := hb
  have h4 : startsLit ['R', 'E', 'M', ' '] (jsTrim raw) = false := h2
  have hne : jsTrim raw ≠ [] := by
    intro he
    rw [he] at h3
    exact absurd h3 (by decide)
  simp [parseLinesGo, h1, h2, h4, h3, hne, hm, nameKinds]

/-- One pass of the line loop on a class header line: a single class symbol
is emitted. -/
theorem parseLinesGo_one_class (uri raw : JSStr) (i : Nat) (st : ParseSt)
    (acc : Option JSStr) (w : JSStr) (base : Option JSStr)
    (hb : (startsLit [apoCh] (jsTrim raw) || startsLit ("REM ".toList) (jsTrim raw)
        || (jsTrim raw).isEmpty) = false)
    (hm : matchModule (jsTrim raw) = none)
    (hc : matchClass (jsTrim raw) = some (acc, w, base)) :
    nameKinds (parseLinesGo uri i st [raw]) = [(w, kindClass)] := by
  simp only [Bool.or_eq_false_iff] at hb
  obtain ⟨⟨h1, h2⟩, h3⟩ := hb
  have h4 : startsLit ['R', 'E', 'M', ' '] (jsTrim raw) = false := h2
  have hne : jsTrim raw ≠ [] := by
    intro he
    rw [he] at h3
    exact absurd h3 (by decide)
  simp [parseLinesGo, h1, h2, h4, h3, hne, hm, hc, nameKinds]

/-- A `Module w` document parses to the single module symbol. -/
theorem c4_module_family (w uri : JSStr) (hw : IsIdent w) :
    nameKinds (parseDocumentSymbols (moduleLine w) uri) = [(w, kindModule)] := by
  have hnl : ¬ '\n' ∈ moduleLine w := noNl_pre ("Module ".toList) w hw (by decide)
  have htrim : jsTrim (moduleLine w) = moduleLine w :=
    jsTrim_pre ("Module ".toList) w hw
      (fun c hc => by
        have h : 'M' = c := Option.some_inj.mp hc
        exact h ▸ (by decide))
      (by decide)
  rw [parseDocumentSymbols_single _ uri hnl]
  exact parseLinesGo_one_module uri (moduleLine w) 0 (none, none) none w
    (by simp only [htrim]; rfl) (by simp only [htrim]; exact matchModule_pos w hw)

/-- A `Class w` document parses to the single class symbol. -/
theorem c4_class_family (w uri : JSStr) (hw : IsIdent w) :
    nameKinds (parseDocumentSymbols (classLine w) uri) = [(w, kindClass)] := by
  have hnl : ¬ '\n' ∈ classLine w := noNl_pre ("Class ".toList) w hw (by decide)
  have htrim : jsTrim (classLine w) = classLine w :=
    jsTrim_pre ("Class ".toList) w hw
      (fun c hc => by
        have h : 'C' = c := Option.some_inj.mp hc
        exact h ▸ (by decide))
      (by decide)
  rw [parseDocumentSymbols_single _ uri hnl]
  exact parseLinesGo_one_class uri (classLine w) 0 (none, none) none w none
    (by simp only [htrim]; rfl) (by simp only [htrim]; rfl)
    (by simp only [htrim]; exact matchClass_pos w hw)

/-- A `Property Get w` document parses to the single property symbol. -/
theorem c4_property_family (w uri : JSStr) (hw : IsIdent w) :
    nameKinds (parseDocumentSymbols (propertyLine w) uri) = [(w, kindProperty)] := by
  have hnl : ¬ '\n' ∈ propertyLine w := noNl_pre ("Property Get ".toList) w hw (by decide)
  have htrim : jsTrim (propertyLine w) = propertyLine w :=
    jsTrim_pre ("Property Get ".toList) w hw
      (fun c hc => by
        have h : 'P' = c := Option.some_inj.mp hc
        exact h ▸ (by decide))
      (by decide)
  rw [parseDocumentSymbols_single _ uri hnl]
  rw [parseLinesGo_one uri (propertyLine w) 0 (none, none)
    (by simp only [htrim]; rfl) (by simp only [htrim]; rfl) (by simp only [htrim]; rfl)]
  rw [htrim]
  have hP : matchProperty (propertyLine w) = some (none, some ("Get".toList), w, none) :=
    matchProperty_pos w hw
  have hF : matchFunc (propertyLine w) = none := rfl
  have hS : matchSub (propertyLine w) = none := rfl
  have hV : matchVar (propertyLine w) = none := rfl
  have hC : matchConst (propertyLine w) = none := rfl
  have hE : matchEnum (propertyLine w) = none := rfl
  have hT : matchType (propertyLine w) = none := rfl
  simp [lineSymbols, nameKinds, hP, hF, hS, hV, hC, hE, hT]

/-- A `Function w()` document parses to the single function symbol. -/
theorem c4_function_family (w uri : JSStr) (hw : IsIdent w) :
    nameKinds (parseDocumentSymbols (functionLine w) uri) = [(w, kindFunction)] := by
  have hnl : ¬ '\n' ∈ functionLine w := noNl_wrap ("Function ".toList) w ("()".toList) hw (by decide) (by decide)
  have htrim : jsTrim (functionLine w) = functionLine w :=
    jsTrim_wrap ("Function ".toList) w ("()".toList)
      (fun c hc => by
        have h : 'F' = c := Option.some_inj.mp hc
        exact h ▸ (by decide))
      (by decide)
      (fun c hc => by
        have h : ')' = c := Option.some_inj.mp hc
        exact h ▸ (by decide))
      (by decide)
  rw [parseDocumentSymbols_single _ uri hnl]
  rw [parseLinesGo_one uri (functionLine w) 0 (none, none)
    (by simp only [htrim]; rfl) (by simp only [htrim]; rfl) (by simp only [htrim]; rfl)]
  rw [htrim]
  have hP : matchProperty (functionLine w) = none := rfl
  have hF : matchFunc (functionLine w) = some (none, w, [], none) := matchFunc_pos w hw
  have hS : matchSub (functionLine w) = none := rfl
  have hV : matchVar (functionLine w) = none := rfl
  have hC : matchConst (functionLine w) = none := rfl
  have hE : matchEnum (functionLine w) = none := rfl
  have hT : matchType (functionLine w) = none := rfl
  simp [lineSymbols, nameKinds, hP, hF, hS, hV, hC, hE, hT]

/-- A `Sub w()` document parses to the single method symbol. -/
theorem c4_sub_family (w uri : JSStr) (hw : IsIdent w) :
    nameKinds (parseDocumentSymbols (subLine w) uri) = [(w, kindMethod)] := by
  have hnl : ¬ '\n' ∈ subLine w := noNl_wrap ("Sub ".toList) w ("()".toList) hw (by decide) (by decide)
  have htrim : jsTrim (subLine w) = subLine w :=
    jsTrim_wrap ("Sub ".toList) w ("()".toList)
      (fun c hc => by
        have h : 'S' = c := Option.some_inj.mp hc
        exact h ▸ (by decide))
      (by decide)
      (fun c hc => by
        have h : ')' = c := Option.some_inj.mp hc
        exact h ▸ (by decide))
      (by decide)
  rw [parseDocumentSymbols_single _ uri hnl]
  rw [parseLinesGo_one uri (subLine w) 0 (none, none)
    (by simp only [htrim]; rfl) (by simp only [htrim]; rfl) (by simp only [htrim]; rfl)]
  rw [htrim]
  have hP : matchProperty (subLine w) = none := rfl
  have hF : matchFunc (subLine w) = none := rfl
  have hS : matchSub (subLine w) = some (none, w, []) := matchSub_pos w hw
  have hV : matchVar (subLine w) = none := rfl
  have hC : matchConst (subLine w) = none := rfl
  have hE : matchEnum (subLine w) = none := rfl
  have hT : matchType (subLine w) = none := rfl
  simp [lineSymbols, nameKinds, hP, hF, hS, hV, hC, hE, hT]

/-- A `Dim w` document parses to the single variable symbol. -/
theorem c4_dim_family (w uri : JSStr) (hw : IsIdent w) :
    nameKinds (parseDocumentSymbols (dimLine w) uri) = [(w, kindVariable)] := by
  have hnl : ¬ '\n' ∈ dimLine w := noNl_pre ("Dim ".toList) w hw (by decide)
  have htrim : jsTrim (dimLine w) = dimLine w :=
    jsTrim_pre ("Dim ".toList) w hw
      (fun c hc => by
        have h : 'D' = c := Option.some_inj.mp hc
        exact h ▸ (by decide))
      (by decide)
  rw [parseDocumentSymbols_single _ uri hnl]
  rw [parseLinesGo_one uri (dimLine w) 0 (none, none)
    (by simp only [htrim]; rfl) (by simp only [htrim]; rfl) (by simp only [htrim]; rfl)]
  rw [htrim]
  have hP : matchProperty (dimLine w) = none := rfl
  have hF : matchFunc (dimLine w) = none := rfl
  have hS : matchSub (dimLine w) = none := rfl
  have hV : matchVar (dimLine w) = some ("Dim".toList, w, none) := matchVar_pos w hw
  have hC : matchConst (dimLine w) = none := rfl
  have hE : matchEnum (dimLine w) = none := rfl
  have hT : matchType (dimLine w) = none := rfl
  simp [lineSymbols, nameKinds, hP, hF, hS, hV, hC, hE, hT]

/-- A `Const w = 1` document parses to the single constant symbol. -/
theorem c4_const_family (w uri : JSStr) (hw : IsIdent w) :
    nameKinds (parseDocumentSymbols (constLine w) uri) = [(w, kindConstant)] := by
  have hnl : ¬ '\n' ∈ constLine w := noNl_wrap ("Const ".toList) w (" = 1".toList) hw (by decide) (by decide)
  have htrim : jsTrim (constLine w) = constLine w :=
    jsTrim_wrap ("Const ".toList) w (" = 1".toList)
      (fun c hc => by
        have h : 'C' = c := Option.some_inj.mp hc
        exact h ▸ (by decide))
      (by decide)
      (fun c hc => by
        have h : '1' = c := Option.some_inj.mp hc
        exact h ▸ (by decide))
      (by decide)
  rw [parseDocumentSymbols_single _ uri hnl]
  rw [parseLinesGo_one uri (constLine w) 0 (none, none)
    (by simp only [htrim]; rfl) (by simp only [htrim]; rfl) (by simp only [htrim]; rfl)]
  rw [htrim]
  have hP : matchProperty (constLine w) = none := rfl
  have hF : matchFunc (constLine w) = none := rfl
  have hS : matchSub (constLine w) = none := rfl
  have hV : matchVar (constLine w) = none := rfl
  have hC : matchConst (constLine w) = some (none, w, none, "1".toList) := matchConst_pos w hw
  have hE : matchEnum (constLine w) = none := rfl
  have hT : matchType (constLine w) = none := rfl
  simp [lineSymbols, nameKinds, hP, hF, hS, hV, hC, hE, hT]

/-- An `Enum w` document parses to the single enumeration symbol. -/
theorem c4_enum_family (w uri : JSStr) (hw : IsIdent w) :
    nameKinds (parseDocumentSymbols (enumLine w) uri) = [(w, kindEnum)] := by
  have hnl : ¬ '\n' ∈ enumLine w := noNl_pre ("Enum ".toList) w hw (by decide)
  have htrim : jsTrim (enumLine w) = enumLine w :=
    jsTrim_pre ("Enum ".toList) w hw
      (fun c hc => by
        have h : 'E' = c := Option.some_inj.mp hc
        exact h ▸ (by decide))
      (by decide)
  rw [parseDocumentSymbols_single _ uri hnl]
  rw [parseLinesGo_one uri (enumLine w) 0 (none, none)
    (by simp only [htrim]; rfl) (by simp only [htrim]; rfl) (by simp only [htrim]; rfl)]
  rw [htrim]
  have hP : matchProperty (enumLine w) = none := rfl
  have hF : matchFunc (enumLine w) = none := rfl
  have hS : matchSub (enumLine w) = none := rfl
  have hV : matchVar (enumLine w) = none := rfl
  have hC : matchConst (enumLine w) = none := rfl
  have hE : matchEnum (enumLine w) = some (none, w) := matchEnum_pos w hw
  have hT : matchType (enumLine w) = none := rfl
  simp [lineSymbols, nameKinds, hP, hF, hS, hV, hC, hE, hT]

/-- A `Type w` document parses to the single user-defined-type symbol. -/
theorem c4_type_family (w uri : JSStr) (hw : IsIdent w) :
    nameKinds (parseDocumentSymbols (typeLine w) uri) = [(w, kindStruct)] := by
  have hnl : ¬ '\n' ∈ typeLine w := noNl_pre ("Type ".toList) w hw (by decide)
  have htrim : jsTrim (typeLine w) = typeLine w :=
    jsTrim_pre ("Type ".toList) w hw
      (fun c hc => by
        have h : 'T' = c := Option.some_inj.mp hc
        exact h ▸ (by decide))
      (by decide)
  rw [parseDocumentSymbols_single _ uri hnl]
  rw [parseLinesGo_one uri (typeLine w) 0 (none, none)
    (by simp only [htrim]; rfl) (by simp only [htrim]; rfl) (by simp only [htrim]; rfl)]
  rw [htrim]
  have hP : matchProperty (typeLine w) = none := rfl
  have hF : matchFunc (typeLine w) = none := rfl
  have hS : matchSub (typeLine w) = none := rfl
  have hV : matchVar (typeLine w) = none := rfl
  have hC : matchConst (typeLine w) = none := rfl
  have hE : matchEnum (typeLine w) = none := rfl
  have hT : matchType (typeLine w) = some (none, w) := matchType_pos w hw
  simp [lineSymbols, nameKinds, hP, hF, hS, hV, hC, hE, hT]

/-- A `Private Sub w()` document parses to TWO symbols: the method, and a
spurious variable named `Sub` from the variable branch, which also matches
because the loop body has no `continue` between branches. -/
theorem c4_private_sub_family (w uri : JSStr) (hw : IsIdent w) :
    nameKinds (parseDocumentSymbols (privateSubLine w) uri)
      = [(w, kindMethod), ("Sub".toList, kindVariable)] := by
  have hnl : ¬ '\n' ∈ privateSubLine w := noNl_wrap ("Private Sub ".toList) w ("()".toList) hw (by decide) (by decide)
  have htrim : jsTrim (privateSubLine w) = privateSubLine w :=
    jsTrim_wrap ("Private Sub ".toList) w ("()".toList)
      (fun c hc => by
        have h : 'P' = c := Option.some_inj.mp hc
        exact h ▸ (by decide))
      (by decide)
      (fun c hc => by
        have h : ')' = c := Option.some_inj.mp hc
        exact h ▸ (by decide))
      (by decide)
  rw [parseDocumentSymbols_single _ uri hnl]
  rw [parseLinesGo_one uri (privateSubLine w) 0 (none, none)
    (by simp only [htrim]; rfl) (by simp only [htrim]; rfl) (by simp only [htrim]; rfl)]
  rw [htrim]
  have hP : matchProperty (privateSubLine w) = none := rfl
  have hF : matchFunc (privateSubLine w) = none := rfl
  have hS : matchSub (privateSubLine w) = some (some ("Private ".toList), w, []) :=
    matchSub_priv w hw
  have hV : matchVar (privateSubLine w) = some ("Private".toList, "Sub".toList, none) :=
    matchVar_priv w hw
  have hC : matchConst (privateSubLine w) = none := rfl
  have hE : matchEnum (privateSubLine w) = none := rfl
  have hT : matchType (privateSubLine w) = none := rfl
  simp [lineSymbols, nameKinds, hP, hF, hS, hV, hC, hE, hT]

/-- Claim C4 (amended) — single-symbol parsing.  For each of the nine
single-construct declaration lines (module, class, property, function,
subroutine, `Dim` variable, constant, enumeration, user-defined type) built
over an arbitrary identifier, `parseDocumentSymbols` emits exactly one
symbol whose name and kind are those of the construct.  For a
modifier-prefixed subroutine `Private Sub w()`, however, the variable
branch of the parser loop fires as well (the loop has no `continue`
between branches and the variable regex also accepts `Private Sub`), so
the parse emits TWO symbols: the method `w` and a spurious variable named
`Sub`. -/
theorem parser_single_symbol (w uri : JSStr) (hw : IsIdent w) :
    nameKinds (parseDocumentSymbols (moduleLine w) uri) = [(w, kindModule)]
  ∧ nameKinds (parseDocumentSymbols (classLine w) uri) = [(w, kindClass)]
  ∧ nameKinds (parseDocumentSymbols (propertyLine w) uri) = [(w, kindProperty)]
  ∧ nameKinds (parseDocumentSymbols (functionLine w) uri) = [(w, kindFunction)]
  ∧ nameKinds (parseDocumentSymbols (subLine w) uri) = [(w, kindMethod)]
  ∧ nameKinds (parseDocumentSymbols (dimLine w) uri) = [(w, kindVariable)]
  ∧ nameKinds (parseDocumentSymbols (constLine w) uri) = [(w, kindConstant)]
  ∧ nameKinds (parseDocumentSymbols (enumLine w) uri) = [(w, kindEnum)]
  ∧ nameKinds (parseDocumentSymbols (typeLine w) uri) = [(w, kindStruct)]
  ∧ nameKinds (parseDocumentSymbols (privateSubLine w) uri)
      = [(w, kindMethod), ("Sub".toList, kindVariable)] :=
  ⟨c4_module_family w uri hw, c4_class_family w uri hw, c4_property_family w uri hw,
   c4_function_family w uri hw, c4_sub_family w uri hw, c4_dim_family w uri hw,
   c4_const_family w uri hw, c4_enum_family w uri hw, c4_type_family w uri hw,
   c4_private_sub_family w uri hw⟩

/-- The line `Private Sub Foo()` matches the supported subroutine pattern
yet the parser emits two symbols for it, not one: the method `Foo` and a
variable named `Sub`. -/
theorem parser_single_symbol_counterexample :
    nameKinds (parseDocumentSymbols ("Private Sub Foo()".toList) ("file:///a.vb".toList))
      = [("Foo".toList, kindMethod), ("Sub".toList, kindVariable)]
  ∧ (nameKinds (parseDocumentSymbols ("Private Sub Foo()".toList)
      ("file:///a.vb".toList))).length ≠ 1 := by
  constructor
  · decide
  · decide

/-- The parser claim evaluated at the concrete identifier `Foo`. -/
theorem parser_single_symbol_witness :
    IsIdent ("Foo".toList)
  ∧ nameKinds (parseDocumentSymbols (moduleLine ("Foo".toList)) ("file:///a.vb".toList))
      = [("Foo".toList, kindModule)] :=
  ⟨⟨by decide, by decide⟩,
   (parser_single_symbol ("Foo".toList) ("file:///a.vb".toList)
      ⟨by decide, by decide⟩).1⟩

/-- Matching a literal against itself followed by anything consumes exactly
the literal. -/
theorem eatLit_self (k s : JSStr) : eatLit k (k ++ s) = some s := by
  induction k with
  | nil => rfl
  | cons a t ih => simp [eatLit, ih]

/-- A literal never matches a shorter string. -/
theorem eatLit_short (pat s : JSStr) (h : s.length < pat.length) :
    eatLit pat s = none := by
  induction pat generalizing s with
  | nil => exact absurd h (Nat.not_lt_zero _)
  | cons p ps ih =>
    cases s with
    | nil => rfl
    | cons c cs =>
      simp only [eatLit]
      by_cases hpc : (p == c) = true
      · rw [if_pos hpc]
        simp only [List.length_cons] at h
        exact ih cs (by omega)
      · rw [if_neg hpc]

/-- Decimal digit characters, by exhaustive check. -/
theorem digitChar_isDigit : ∀ d, d < 10 → isDigitCh (Char.ofNat (48 + d)) = true := by
  decide

/-- Round trip of a single digit through its character. -/
theorem digitChar_toNat : ∀ d, d < 10 → (Char.ofNat (48 + d)).toNat - 48 = d := by
  decide

/-- A digit character is never the capital letter starting the header. -/
theorem isDigitCh_ne (c : Char) (h : isDigitCh c = true) : ¬ c = 'C' := by
  intro he
  rw [he] at h
  exact absurd h (by decide)

/-- Every character of the decimal rendering is a digit. -/
theorem natToStr_digits (n : Nat) : ∀ c ∈ natToStr n, isDigitCh c = true := by
  intro c hc
  unfold natToStr at hc
  by_cases h : n = 0
  · rw [if_pos h] at hc
    simp only [List.mem_singleton] at hc
    rw [hc]
    decide
  · rw [if_neg h] at hc
    rcases List.mem_map.mp hc with ⟨d, hd, hcd⟩
    have hlt : d < 10 := Nat.digits_lt_base (by norm_num) (List.mem_reverse.mp hd)
    rw [← hcd]
    exact digitChar_isDigit d hlt

/-- The decimal rendering is never empty. -/
theorem natToStr_ne_nil (n : Nat) : natToStr n ≠ [] := by
  unfold natToStr
  by_cases h : n = 0
  · rw [if_pos h]
    simp
  · rw [if_neg h]
    simp only [ne_eq, List.map_eq_nil_iff, List.reverse_eq_nil_iff]
    exact Nat.digits_ne_nil_iff_ne_zero.mpr h

/-- `parseInt` inverts the decimal rendering, as the bridge relies on when it
reads back the length it wrote. -/
theorem parseIntDec_natToStr (n : Nat) : parseIntDec (natToStr n) = n := by
  by_cases h : n = 0
  · subst h
    decide
  · unfold parseIntDec natToStr
    rw [if_neg h]
    simp only [List.map_reverse, List.map_map, List.reverse_reverse]
    have key : ∀ d ∈ Nat.digits 10 n,
        ((fun c : Char => c.toNat - 48) ∘ (fun d : Nat => Char.ofNat (48 + d))) d = d := by
      intro d hd
      simp only [Function.comp_apply]
      exact digitChar_toNat d (Nat.digits_lt_base (by norm_num) hd)
    rw [List.map_congr_left key, List.map_id']
    exact Nat.ofDigits_digits 10 n

/-- The header regex anchored at a complete encoded header: it parses back
the written length and spans the whole header. -/
theorem headerHere_encode (n : Nat) (m : JSStr) :
    headerHere (clHead ++ (natToStr n ++ (crlf2 ++ m)))
      = some (n, clHead.length + (natToStr n).length + crlf2.length) := by
  unfold headerHere
  rw [eatLit_self]
  have hspan : spanP isDigitCh (natToStr n ++ (crlf2 ++ m)) = (natToStr n, crlf2 ++ m) :=
    spanP_exact _ _ _ (natToStr_digits n)
      (fun c hc => by
        have h : '\r' = c := Option.some_inj.mp hc
        exact h ▸ (by decide))
  simp only [hspan]
  have hne : (natToStr n).isEmpty = false := by
    cases hh : natToStr n with
    | nil => exact absurd hh (natToStr_ne_nil n)
    | cons a t => rfl
  simp [hne, eatLit_self, parseIntDec_natToStr]

/-- The anchored header regex fails whenever fewer than four characters
remain after the digit span — in particular on any truncated header. -/
theorem headerHere_short (Q : JSStr)
    (h : ((spanP isDigitCh Q).2).length < crlf2.length) :
    headerHere (clHead ++ Q) = none := by
  unfold headerHere
  rw [eatLit_self]
  rcases hsp : spanP isDigitCh Q with ⟨ds, r2⟩
  rw [hsp] at h
  simp only [hsp]
  by_cases hds : ds.isEmpty = true
  · simp [hds]
  · simp only [Bool.not_eq_true] at hds
    have h2 : r2.length < crlf2.length := h
    simp [hds, eatLit_short crlf2 r2 h2]

/-- The anchored header regex fails when the text does not start with the
capital `C` of `Content-Length`. -/
theorem headerHere_head_ne (t : JSStr) (h : ∀ c, t.head? = some c → ¬ c = 'C') :
    headerHere t = none := by
  cases t with
  | nil => rfl
  | cons c cs =>
    have hc : ¬ c = 'C' := h c rfl
    have hcc : ¬ (('C' == c) = true) := by
      simp only [beq_iff_eq]
      exact fun hh => hc hh.symm
    have he : eatLit clHead (c :: cs) = none := by
      show (if ('C' == c) = true then eatLit ("ontent-Length: ".toList) cs else none) = none
      rw [if_neg hcc]
    simp [headerHere, he]

/-- The header scan finds nothing in text that contains no capital `C`. -/
theorem findHeaderFrom_noC (s : JSStr) (i : Nat) (h : ∀ c ∈ s, ¬ c = 'C') :
    findHeaderFrom s i = none := by
  induction s generalizing i with
  | nil => rfl
  | cons c cs ih =>
    have h0 : headerHere (c :: cs) = none :=
      headerHere_head_ne _ (fun d hd => by
        have hcd : c = d := Option.some_inj.mp hd
        exact hcd ▸ h c (by simp))
    simp [findHeaderFrom, h0, ih (i + 1) (fun x hx => h x (by simp [hx]))]

/-- When the anchored regex matches at the start of the buffer, the leftmost
header is at index zero. -/
theorem findHeader_of_headerHere (s : JSStr) (n hl : Nat) (hne : s ≠ [])
    (h : headerHere s = some (n, hl)) : findHeader s = some (0, n, hl) := by
  cases s with
  | nil => exact absurd rfl hne
  | cons c cs => simp [findHeader, findHeaderFrom, h]

/-- The anchored header regex fails on every proper prefix of an encoded
header. -/
theorem headerHere_take_none (n : Nat) (m : JSStr) (k : Nat)
    (hk : k < clHead.length + (natToStr n).length + crlf2.length) :
    headerHere ((clHead ++ (natToStr n ++ (crlf2 ++ m))).take k) = none := by
  by_cases h16 : k < clHead.length
  · have hlen : ((clHead ++ (natToStr n ++ (crlf2 ++ m))).take k).length < clHead.length := by
      rw [List.length_take]
      exact lt_of_le_of_lt (Nat.min_le_left _ _) h16
    unfold headerHere
    rw [eatLit_short _ _ hlen]
  · push_neg at h16
    rw [List.take_append_eq_append_take, List.take_of_length_le h16]
    apply headerHere_short
    by_cases hjds : k - clHead.length ≤ (natToStr n).length
    · rw [List.take_append_of_le_length hjds]
      have hQ : ∀ c ∈ (natToStr n).take (k - clHead.length), isDigitCh c = true :=
        fun c hc => natToStr_digits n c (List.mem_of_mem_take hc)
      have hsp : spanP isDigitCh ((natToStr n).take (k - clHead.length))
          = ((natToStr n).take (k - clHead.length), []) := by
        have := spanP_exact isDigitCh ((natToStr n).take (k - clHead.length)) [] hQ
          (fun c hc => by simp at hc)
        simpa using this
      rw [hsp]
      show ([] : JSStr).length < crlf2.length
      decide
    · push_neg at hjds
      rw [List.take_append_eq_append_take,
        List.take_of_length_le (Nat.le_of_lt hjds)]
      have hlt4 : k - clHead.length - (natToStr n).length < crlf2.length := by omega
      rw [List.take_append_of_le_length (Nat.le_of_lt hlt4)]
      have hsp : spanP isDigitCh
          (natToStr n ++ crlf2.take (k - clHead.length - (natToStr n).length))
          = (natToStr n, crlf2.take (k - clHead.length - (natToStr n).length)) := by
        refine spanP_exact _ _ _ (natToStr_digits n) (fun c hc => ?_)
        rcases hi : k - clHead.length - (natToStr n).length with _ | i2
        · rw [hi] at hc
          simp at hc
        · rw [hi] at hc
          have hrc : '\r' = c := Option.some_inj.mp hc
          exact hrc ▸ (by decide)
      rw [hsp]
      show (crlf2.take (k - clHead.length - (natToStr n).length)).length < crlf2.length
      rw [List.length_take]
      exact lt_of_le_of_lt (Nat.min_le_left _ _) hlt4

/-- The header scan finds nothing in a proper prefix of an encoded header:
the only capital `C` is at index zero, where the anchored match is
incomplete. -/
theorem findHeader_take_none (n : Nat) (m : JSStr) (k : Nat)
    (hk : k < clHead.length + (natToStr n).length + crlf2.length) :
    findHeader ((clHead ++ (natToStr n ++ (crlf2 ++ m))).take k) = none := by
  cases k with
  | zero => rfl
  | succ j =>
    have hshape : (clHead ++ (natToStr n ++ (crlf2 ++ m))).take (j + 1)
        = 'C' :: (("ontent-Length: ".toList ++ (natToStr n ++ (crlf2 ++ m))).take j) := rfl
    have h0 : headerHere ('C' :: (("ontent-Length: ".toList
        ++ (natToStr n ++ (crlf2 ++ m))).take j)) = none := by
      rw [← hshape]
      exact headerHere_take_none n m (j + 1) hk
    unfold findHeader
    rw [hshape]
    simp only [findHeaderFrom, h0]
    apply findHeaderFrom_noC
    intro c hc
    have hassoc : "ontent-Length: ".toList ++ (natToStr n ++ (crlf2 ++ m))
        = ("ontent-Length: ".toList ++ (natToStr n ++ crlf2)) ++ m := by
      simp [List.append_assoc]
    have hc16 : clHead.length = 16 := rfl
    have ho15 : ("ontent-Length: ".toList : JSStr).length = 15 := rfl
    have hjle : j ≤ ("ontent-Length: ".toList ++ (natToStr n ++ crlf2)).length := by
      simp only [List.length_append]
      omega
    rw [hassoc, List.take_append_of_le_length hjle] at hc
    have hc2 : c ∈ "ontent-Length: ".toList ++ (natToStr n ++ crlf2) :=
      List.mem_of_mem_take hc
    rcases List.mem_append.mp hc2 with h1 | h1
    · exact (by decide : ∀ x ∈ "ontent-Length: ".toList, ¬ x = 'C') c h1
    · rcases List.mem_append.mp h1 with h2 | h2
      · exact isDigitCh_ne c (natToStr_digits n c h2)
      · exact (by decide : ∀ x ∈ crlf2, ¬ x = 'C') c h2

/-- An ASCII character encodes to one UTF-8 byte. -/
theorem utf8Size_one (c : Char) (h : c.toNat < 128) : c.utf8Size = 1 := by
  unfold Char.utf8Size
  rw [if_pos]
  rw [UInt32.le_def]
  show c.val.toNat ≤ (127 : UInt32).toNat
  exact Nat.le_of_lt_succ h

/-- For ASCII text, the UTF-8 byte length the bridge writes equals the
UTF-16 code-unit length its deframing loop indexes with. -/
theorem utf8Len_ascii (m : JSStr) (h : ∀ c ∈ m, c.toNat < 128) :
    utf8Len m = m.length := by
  induction m with
  | nil => rfl
  | cons c t ih =>
    have hc := utf8Size_one c (h c (by simp))
    have ht := ih (fun x hx => h x (by simp [hx]))
    simp only [utf8Len, List.map_cons, List.sum_cons, List.length_cons] at *
    omega

/-- The deframing loop on an empty buffer sends nothing. -/
theorem deframeFuel_nil (k : Nat) : deframeFuel k [] = ([], []) := by
  cases k with
  | zero => rfl
  | succ j => rfl

/-- A buffer holding exactly one complete frame is consumed whole: the
payload goes out and the buffer empties. -/
theorem deframe_complete (buf m : JSStr) (n hl : Nat)
    (hF : findHeader buf = some (0, n, hl))
    (hlen : buf.length = hl + n)
    (hmsg : buf.drop hl = m) (hn : n = m.length) :
    deframe buf = ([m], []) := by
  unfold deframe
  simp only [deframeFuel, hF]
  rw [if_neg (by omega)]
  have h1 : buf.drop (0 + hl) = m := by
    rw [Nat.zero_add]
    exact hmsg
  have h2 : buf.drop (0 + hl + n) = [] := by
    rw [Nat.zero_add, ← hlen]
    exact List.drop_length _
  rw [h1, h2, hn, List.take_length, deframeFuel_nil]

/-- The decimal rendering of `2`, computed once: `Nat.digits` is defined by
well-founded recursion and does not reduce definitionally. -/
theorem natToStr_two : natToStr 2 = ['2'] := by
  unfold natToStr
  rw [if_neg (by norm_num)]
  rw [Nat.digits_def' (by norm_num : (1 : Nat) < 10) (by norm_num : 0 < 2)]
  norm_num

/-- Decoding a complete ASCII frame yields exactly the encoded message with
an empty buffer left. -/
theorem deframe_encodeLSP (m : JSStr) (h : ∀ c ∈ m, c.toNat < 128) :
    deframe (encodeLSP m) = ([m], []) := by
  have hn : utf8Len m = m.length := utf8Len_ascii m h
  have henc : encodeLSP m = clHead ++ (natToStr m.length ++ (crlf2 ++ m)) := by
    rw [encodeLSP, hn]
    simp [List.append_assoc]
  have hH : headerHere (encodeLSP m)
      = some (m.length, clHead.length + (natToStr m.length).length + crlf2.length) := by
    rw [henc]
    exact headerHere_encode m.length m
  have hF : findHeader (encodeLSP m)
      = some (0, m.length, clHead.length + (natToStr m.length).length + crlf2.length) := by
    refine findHeader_of_headerHere _ _ _ ?_ hH
    rw [henc]
    exact List.cons_ne_nil _ _
  have hElen : (encodeLSP m).length
      = (clHead.length + (natToStr m.length).length + crlf2.length) + m.length := by
    rw [henc]
    simp only [List.length_append]
    omega
  have hdrop : (encodeLSP m).drop
      (clHead.length + (natToStr m.length).length + crlf2.length) = m := by
    rw [henc]
    rw [show clHead ++ (natToStr m.length ++ (crlf2 ++ m))
        = (clHead ++ (natToStr m.length ++ crlf2)) ++ m from by simp [List.append_assoc]]
    rw [show clHead.length + (natToStr m.length).length + crlf2.length
        = (clHead ++ (natToStr m.length ++ crlf2)).length from by
      simp only [List.length_append]; omega]
    exact List.drop_left _ _
  exact deframe_complete (encodeLSP m) m m.length _ hF hElen hdrop rfl

/-- Feeding any proper prefix of an ASCII frame to the deframing loop sends
nothing and leaves the prefix buffered. -/
theorem deframe_take_stall (m : JSStr) (k : Nat) (h : ∀ c ∈ m, c.toNat < 128)
    (hk : k < (encodeLSP m).length) :
    deframe ((encodeLSP m).take k) = ([], (encodeLSP m).take k) := by
  have hn : utf8Len m = m.length := utf8Len_ascii m h
  have henc : encodeLSP m = clHead ++ (natToStr m.length ++ (crlf2 ++ m)) := by
    rw [encodeLSP, hn]
    simp [List.append_assoc]
  have hElen : (encodeLSP m).length
      = (clHead.length + (natToStr m.length).length + crlf2.length) + m.length := by
    rw [henc]
    simp only [List.length_append]
    omega
  have hc16 : clHead.length = 16 := rfl
  by_cases hcase : k < clHead.length + (natToStr m.length).length + crlf2.length
  · have hFn : findHeader ((encodeLSP m).take k) = none := by
      rw [henc]
      exact findHeader_take_none m.length m k hcase
    unfold deframe
    simp [deframeFuel, hFn]
  · push_neg at hcase
    have htake : (encodeLSP m).take k
        = clHead ++ (natToStr m.length ++ (crlf2 ++ m.take
            (k - (clHead.length + (natToStr m.length).length + crlf2.length)))) := by
      rw [henc]
      rw [List.take_append_eq_append_take, List.take_of_length_le (by omega)]
      rw [List.take_append_eq_append_take, List.take_of_length_le (by omega)]
      rw [List.take_append_eq_append_take, List.take_of_length_le (by omega)]
      have harith : k - clHead.length - (natToStr m.length).length - crlf2.length
          = k - (clHead.length + (natToStr m.length).length + crlf2.length) := by
        omega
      rw [harith]
    have hH : headerHere ((encodeLSP m).take k)
        = some (m.length, clHead.length + (natToStr m.length).length + crlf2.length) := by
      rw [htake]
      exact headerHere_encode m.length _
    have hne : (encodeLSP m).take k ≠ [] := by
      refine List.ne_nil_of_length_pos ?_
      rw [List.length_take]
      omega
    have hF : findHeader ((encodeLSP m).take k)
        = some (0, m.length, clHead.length + (natToStr m.length).length + crlf2.length) :=
      findHeader_of_headerHere _ _ _ hne hH
    unfold deframe
    simp only [deframeFuel, hF]
    rw [if_pos]
    rw [List.length_take]
    omega

/-- Claim C1 (amended) — framing round trip over the bridge transport.  For
an ASCII message `M` (where the UTF-8 byte count in the header equals the
code-unit count the deframing loop indexes with), encoding `M` and
delivering the frame in two chunks split at any position — including inside
the header — forwards exactly the single message `M` and leaves the buffer
empty: the first chunk alone produces no message and stays buffered, and
the second completes the frame.  For non-ASCII messages the byte count
exceeds the code-unit count and the loop stalls forever (see the
counterexample). -/
theorem framing_round_trip (m : JSStr) (k : Nat)
    (hascii : ∀ c ∈ m, c.toNat < 128) (hk : k ≤ (encodeLSP m).length) :
    ((onData [] ((encodeLSP m).take k)).1 ++
        (onData (onData [] ((encodeLSP m).take k)).2 ((encodeLSP m).drop k)).1
      = [m])
  ∧ (onData (onData [] ((encodeLSP m).take k)).2 ((encodeLSP m).drop k)).2 = [] := by
  have hfull : deframe (encodeLSP m) = ([m], []) := deframe_encodeLSP m hascii
  by_cases hlt : k < (encodeLSP m).length
  · have h1 : onData [] ((encodeLSP m).take k) = ([], (encodeLSP m).take k) := by
      show deframe ([] ++ (encodeLSP m).take k) = _
      rw [List.nil_append]
      exact deframe_take_stall m k hascii hlt
    have h2 : onData ((encodeLSP m).take k) ((encodeLSP m).drop k) = ([m], []) := by
      show deframe ((encodeLSP m).take k ++ (encodeLSP m).drop k) = _
      rw [List.take_append_drop]
      exact hfull
    simp [h1, h2]
  · have hke : k = (encodeLSP m).length := by omega
    subst hke
    have h1 : onData [] (encodeLSP m) = ([m], []) := by
      show deframe ([] ++ encodeLSP m) = _
      rw [List.nil_append]
      exact hfull
    have hd : (encodeLSP m).drop (encodeLSP m).length = [] := List.drop_length _
    have h2 : onData ([] : JSStr) ([] : JSStr) = ([], []) := rfl
    simp [h1, hd, h2]

/-- The one-character message `é` (code point 233) encodes with byte length
2 but occupies one code unit, so the deframing loop waits forever for a
byte that never arrives: nothing is forwarded and the whole frame stays in
the buffer, refuting the round trip for non-ASCII messages. -/
theorem framing_round_trip_counterexample :
    deframe (encodeLSP [Char.ofNat 233]) = ([], encodeLSP [Char.ofNat 233])
  ∧ utf8Len [Char.ofNat 233] = 2 := by
  have henc : encodeLSP [Char.ofNat 233]
      = "Content-Length: 2\r\n\r\n".toList ++ [Char.ofNat 233] := by
    rw [encodeLSP, show utf8Len [Char.ofNat 233] = 2 from by decide, natToStr_two]
    decide
  rw [henc]
  constructor
  · decide
  · decide

/-- The framing round trip evaluated at the ASCII message `ab` split five
characters in (inside the header). -/
theorem framing_round_trip_witness :
    (∀ c ∈ ("ab".toList : JSStr), c.toNat < 128)
  ∧ 5 ≤ (encodeLSP ("ab".toList)).length
  ∧ (((onData [] ((encodeLSP ("ab".toList)).take 5)).1 ++
        (onData (onData [] ((encodeLSP ("ab".toList)).take 5)).2
          ((encodeLSP ("ab".toList)).drop 5)).1
      = ["ab".toList])
    ∧ (onData (onData [] ((encodeLSP ("ab".toList)).take 5)).2
        ((encodeLSP ("ab".toList)).drop 5)).2 = []) := by
  have henc : encodeLSP ("ab".toList)
      = "Content-Length: 2\r\n\r\n".toList ++ "ab".toList := by
    rw [encodeLSP, show utf8Len ("ab".toList) = 2 from by decide, natToStr_two]
    decide
  refine ⟨by decide, ?_, framing_round_trip ("ab".toList) 5 (by decide) ?_⟩
  · rw [henc]
    decide
  · rw [henc]
    decide

end VBLSP
